import Mathlib

/-!
Verification development for the water-sort puzzle map tool.

The definitions below are a shallow embedding of the C++ sources:
`src/core/Types.hpp`, `src/core/State.cpp`, `src/core/Solver.cpp`,
`src/core/Generator.cpp` and `src/io/Csv.cpp`.  Machine integers are
modelled as `Int` (C++ `int`) and `Nat` with explicit reduction
modulo `2^64` (C++ `uint64_t`) or `2^8` (C++ `uint8_t`, the `Color`
type).  Wall-clock queries (`timeOk()` in the solver) are modelled by
an oracle `tk : Nat → Bool` giving the result of the n-th clock query,
and unbounded C++ loops carry an explicit fuel parameter; fuel
exhaustion only ever produces "timed out / not solved" outcomes, so
theorems conditioned on a successful solve are unaffected.
-/

namespace WaterSort

/-- `Types.hpp`: `using Color = uint8_t` — 0 means empty/none. -/
abbrev Color := Nat

/-- `Types.hpp`: `struct Slot { Color c; bool hidden; }`. -/
structure Slot where
  c : Color := 0
  hidden : Bool := false
deriving Repr, DecidableEq

/-- `Types.hpp`: `enum class StackGimmickKind : uint8_t`. -/
inductive StackGimmickKind where
  | None
  | Cloth
  | Vine
  | Bush
deriving Repr, DecidableEq, BEq

/-- `Types.hpp`: `struct StackGimmick`. -/
structure StackGimmick where
  kind : StackGimmickKind := StackGimmickKind.None
  clothTarget : Color := 0
deriving Repr, DecidableEq

/-- `Types.hpp`: `struct Bottle` — `slots` is bottom → top. -/
structure Bottle where
  slots : List Slot := []
  capacity : Int := 4
  gimmick : StackGimmick := {}
deriving Repr, DecidableEq

/-- `Bottle::size` (an `int` in the source). -/
def Bottle.size (b : Bottle) : Int := b.slots.length

/-- `Bottle::isFull`. -/
def Bottle.isFull (b : Bottle) : Bool := b.size ≥ b.capacity

/-- `Bottle::isEmpty`. -/
def Bottle.isEmpty (b : Bottle) : Bool := b.slots.isEmpty

/-- `Bottle::topColor`: `slots.empty() ? 0 : slots.back().c`.
Note that the source returns the real color even when the top slot is
hidden. -/
def Bottle.topColor (b : Bottle) : Color :=
  match b.slots.getLast? with
  | Option.none => 0
  | Option.some s => s.c

/-- `Bottle::topHidden`. -/
def Bottle.topHidden (b : Bottle) : Bool :=
  match b.slots.getLast? with
  | Option.none => false
  | Option.some s => s.hidden

/-- The loop inside `Bottle::topChunk`, walking from the top (list end)
down: stop at a hidden slot or a color change. The argument list is the
reversed slot list (top first). -/
def chunkAux (t : Color) : List Slot → Nat
  | [] => 0
  | s :: rest => if s.hidden then 0 else if s.c = t then 1 + chunkAux t rest else 0

/-- `Bottle::topChunk`: count of contiguous same-color non-hidden slots
from the top; 0 if the bottle is empty, the top color is 0, or the top
slot is hidden. -/
def Bottle.topChunk (b : Bottle) : Nat :=
  match b.slots.getLast? with
  | Option.none => 0
  | Option.some s => if s.c = 0 ∨ s.hidden then 0 else chunkAux s.c b.slots.reverse

/-- `Bottle::isMonoFull`: at capacity and all slots the same non-zero color. -/
def Bottle.isMonoFull (b : Bottle) : Bool :=
  if b.size ≠ b.capacity ∨ b.slots.isEmpty then false
  else
    match b.slots.head? with
    | Option.none => false
    | Option.some s0 => if s0.c = 0 then false else b.slots.all (fun s => s.c = s0.c)

/-- `Types.hpp`: `struct Move { int from; int to; int amount; }`. -/
structure Move where
  «from» : Int := -1
  «to» : Int := -1
  amount : Int := 0
deriving Repr, DecidableEq

/-- `Types.hpp`: `struct Params`. -/
structure Params where
  numColors : Int := 6
  numBottles : Int := 8
  capacity : Int := 4
deriving Repr, DecidableEq

/-- `State.hpp`: `struct Locks`. -/
structure Locks where
  bushLocked : List Bool := []
  clothLocked : List Bool := []
deriving Repr, DecidableEq

/-- `State.hpp`: `struct State`. -/
structure State where
  p : Params := {}
  B : List Bottle := []
  locks : Locks := {}
deriving Repr, DecidableEq

/-- Color of the bottom slot (`slots[0].c`), 0 when empty; used by
`refreshLocks` to register a mono-full bottle's color. -/
def Bottle.headColor (b : Bottle) : Color :=
  match b.slots.head? with
  | Option.none => 0
  | Option.some s => s.c

/-- `State::refreshLocks`: recompute both lock arrays from scratch.
`colorCompleted` is modelled as the predicate "some bottle is mono-full
of this color"; the source caches it in a `bool[21]` array that is only
read at indices 1..20 (writing it at a mono-full color above 20 would be
out of bounds, i.e. undefined behaviour, in the source). -/
def State.refreshLocks (s : State) : State :=
  let completed : Color → Bool := fun c =>
    s.B.any fun b => b.isMonoFull && b.headColor = c
  let n := s.B.length
  let bushLocked := (List.range n).map fun i =>
    let b := s.B.getD i {}
    if b.gimmick.kind = StackGimmickKind.Bush then
      let leftOk := decide (0 < i) && (s.B.getD (i - 1) {}).isMonoFull
      let rightOk := decide (i + 1 < n) && (s.B.getD (i + 1) {}).isMonoFull
      !(leftOk || rightOk)
    else false
  let clothLocked := (List.range n).map fun i =>
    let b := s.B.getD i {}
    if b.gimmick.kind = StackGimmickKind.Cloth then
      if 1 ≤ b.gimmick.clothTarget ∧ b.gimmick.clothTarget ≤ 20 then
        !(completed b.gimmick.clothTarget)
      else false
    else false
  { s with locks := { bushLocked := bushLocked, clothLocked := clothLocked } }

/-- `State::goal`: first `numColors` bottles mono-full of colors 1..N,
the rest empty.  The source writes `st.B[c-1]` without a bounds check
(undefined behaviour when `numColors > numBottles`); the embedding's
`List.set` is simply a no-op there.  `(Color)c` truncates to `uint8`. -/
def State.goal (p : Params) : State :=
  let B0 : List Bottle := List.replicate p.numBottles.toNat { capacity := p.capacity }
  let B := (List.range p.numColors.toNat).foldl
    (fun B k =>
      let c : Nat := k + 1
      B.set (c - 1)
        { capacity := p.capacity
          slots := List.replicate p.capacity.toNat { c := c % 256, hidden := false } })
    B0
  State.refreshLocks { p := p, B := B, locks := {} }

/-- `State::canPour`: returns the movable amount (`some mv`) exactly when
the source returns `true` (writing `mv` through `outAmount`). -/
def State.canPour (s : State) (f t : Int) : Option Int :=
  if f = t ∨ f < 0 ∨ t < 0 ∨ (s.B.length : Int) ≤ f ∨ (s.B.length : Int) ≤ t then
    Option.none
  else
    let bf := s.B.getD f.toNat {}
    let bt := s.B.getD t.toNat {}
    if bf.gimmick.kind = StackGimmickKind.Vine then Option.none
    else if (bf.gimmick.kind = StackGimmickKind.Cloth && s.locks.clothLocked.getD f.toNat false)
         || (bf.gimmick.kind = StackGimmickKind.Bush && s.locks.bushLocked.getD f.toNat false) then
      Option.none
    else if (bt.gimmick.kind = StackGimmickKind.Cloth && s.locks.clothLocked.getD t.toNat false)
         || (bt.gimmick.kind = StackGimmickKind.Bush && s.locks.bushLocked.getD t.toNat false) then
      Option.none
    else if bf.slots.isEmpty then Option.none
    else if bt.capacity ≤ bt.size then Option.none
    else
      let tcol := bf.topColor
      if tcol = 0 then Option.none
      else
        let destTop := bt.topColor
        if destTop ≠ 0 ∧ destTop ≠ tcol then Option.none
        else
          let mv := min (bf.topChunk : Int) (bt.capacity - bt.size)
          if mv ≤ 0 then Option.none else Option.some mv

/-- The pour loop in `State::apply`: `amount` times, take the source's top
slot, clear its hidden flag, push it onto the destination.  `back()` /
`pop_back()` on an empty vector is undefined behaviour in the source; the
embedding leaves the pair unchanged in that (unreachable for legal
amounts) case. -/
def popPush : Nat → List Slot → List Slot → List Slot × List Slot
  | 0, fs, ts => (fs, ts)
  | Nat.succ n, fs, ts =>
    match fs.getLast? with
    | Option.none => (fs, ts)
    | Option.some s => popPush n fs.dropLast (ts ++ [{ c := s.c, hidden := false }])

/-- The reveal rule at the end of `State::apply`: if the bottle is
non-empty, clear the hidden flag of its (new) top slot. -/
def revealTop (l : List Slot) : List Slot :=
  match l.getLast? with
  | Option.none => l
  | Option.some s => l.dropLast ++ [{ c := s.c, hidden := false }]

/-- `State::apply`.  With `amount ≤ 0` the amount is recomputed via
`canPour` and the call is a no-op if the pour is illegal; with
`amount > 0` the transfer is performed without any legality check.
The source binds references `B[m.from]`, `B[m.«to»]` without a bounds
check and interleaves `push_back`/`pop_back` (undefined behaviour for
out-of-range indices or `from == to`); the embedding reads both bottles
up front and writes them back with `List.set` (a no-op out of range). -/
def State.apply (s : State) (m : Move) : State :=
  if m.«from» < 0 ∨ m.«to» < 0 then s
  else
    let amount? : Option Int :=
      if m.amount ≤ 0 then s.canPour m.«from» m.«to» else Option.some m.amount
    match amount? with
    | Option.none => s
    | Option.some amt =>
      let f := s.B.getD m.«from».toNat {}
      let t := s.B.getD m.«to».toNat {}
      let moved := popPush amt.toNat f.slots t.slots
      let fs := revealTop moved.1
      let ts := revealTop moved.2
      let B := (s.B.set m.«from».toNat { f with slots := fs }).set m.«to».toNat { t with slots := ts }
      State.refreshLocks { s with B := B }

/-- `State::isSolved`: every non-empty bottle is mono-full. -/
def State.isSolved (s : State) : Bool :=
  s.B.all fun b => b.slots.isEmpty || b.isMonoFull

/-- Reduction modulo `2^64` (C++ `uint64_t` wrap-around). -/
def u64 (n : Nat) : Nat := n % 18446744073709551616

/-- Conversion of a C++ `int` value to `uint64_t`. -/
def intToU64 (i : Int) : Nat := (i.emod 18446744073709551616).toNat

/-- One mixing step of `State::hash`:
`h ^= v + 0x9e3779b97f4a7c15 + (h << 6) + (h >> 2)` on `uint64_t`. -/
def hashStep (h v : Nat) : Nat :=
  Nat.xor h (u64 (v + 0x9e3779b97f4a7c15 + u64 (h <<< 6) + (h >>> 2)))

/-- Per-slot value in `State::hash`:
`(uint64(c) << 1) ^ (hidden ? 0xdeadbeef : 0x12345678)`. -/
def slotHashVal (s : Slot) : Nat :=
  Nat.xor (u64 (s.c <<< 1)) (if s.hidden then 0xdeadbeef else 0x12345678)

/-- Numeric value of a gimmick kind (the `uint8_t` enum value). -/
def StackGimmickKind.val : StackGimmickKind → Nat
  | StackGimmickKind.None => 0
  | StackGimmickKind.Cloth => 1
  | StackGimmickKind.Vine => 2
  | StackGimmickKind.Bush => 3

/-- The per-bottle part of `State::hash`.  The source's
`(uint64_t)(b.gimmick.clothTarget << 32)` shifts after integral
promotion to (32-bit) `int` — formally undefined behaviour — and is
modelled as the 64-bit shift reduced modulo `2^64`. -/
def bottleHash (h0 : Nat) (b : Bottle) : Nat :=
  let h1 := hashStep h0 (intToU64 b.capacity)
  let h2 := b.slots.foldl (fun h s => hashStep h (slotHashVal s)) h1
  let h3 := Nat.xor h2 b.gimmick.kind.val
  Nat.xor h3 (u64 (b.gimmick.clothTarget <<< 32))

/-- `State::hash`: rolling content hash used as the transposition key. -/
def State.hash (s : State) : Nat :=
  s.B.foldl bottleHash 1469598103934665603

/-- `rotl` from `State.cpp` on `uint64_t`. -/
def rotl64 (x r : Nat) : Nat :=
  Nat.lor (u64 (x <<< r)) (x >>> (64 - r))

/-- `RNG::next`: advances the 64-bit state and returns
`(returned value, new state)`. -/
def RNG.next (s : Nat) : Nat × Nat :=
  let s1 := Nat.xor s (rotl64 s 7)
  let s2 := Nat.xor s1 (s1 >>> 9)
  (u64 (s2 * 0x9E3779B97F4A7C15), s2)

/-- Wrap a `uint64_t` value into a 32-bit signed `int` (the value of the
C++ conversion on the usual two's-complement targets). -/
def toInt32 (n : Nat) : Int :=
  let low := n % 4294967296
  (low : Int) - (if 2147483648 ≤ low then 4294967296 else 0)

/-- `RNG::irange(lo, hi)`: `lo + int(next() % uint64_t(hi - lo + 1))`,
returning `(value, new state)`.  `hi - lo + 1` wraps as `uint64_t`;
`% 0` (possible only for a degenerate range) is undefined behaviour in
the source and is modelled by `Nat.mod`'s `x % 0 = x`. -/
def RNG.irange (s : Nat) (lo hi : Int) : Int × Nat :=
  let r := RNG.next s
  let range := intToU64 (hi - lo + 1)
  (lo + toInt32 (r.1 % range), r.2)

/-! ## Solver (`src/core/Solver.cpp`)

The wall clock is modelled by an oracle `tk : Nat → Bool` giving the
result of the n-th `timeOk()` query (`true` = still within budget); the
query counter is threaded through the search contexts as `tick`. -/

/-- `SolveResult` (`Solver.hpp`).  The `difficulty` breakdown field (a
struct of `double`s, written only by `estimateDifficulty`, never by
`solve`) is omitted: floating point is outside the embedding. -/
structure SolveResult where
  solved : Bool := false
  timedOut : Bool := false
  minMoves : Int := -1
  distinctSolutions : Int := 0
  solutionCountExhaustive : Bool := false
  solutionCountLimited : Bool := false
  solutionMoves : List Move := []
deriving Repr, DecidableEq

/-- A bottle with every hidden flag cleared (the per-bottle action of
`normalizeForSolve`). -/
def revealAll (b : Bottle) : Bottle :=
  { b with slots := b.slots.map fun sl => { sl with hidden := false } }

/-- `normalizeForSolve`: clear every hidden flag, then refresh locks. -/
def normalizeForSolve (input : State) : State :=
  let normalized := { input with B := input.B.map revealAll }
  normalized.refreshLocks

/-- The group counter inside `heuristic`: walk bottom → top, counting
positions where the color changes to a new non-zero color (`prev` starts
at 0 and is updated on every change, including to 0). -/
def groupsAux : Color → List Slot → Nat
  | _, [] => 0
  | prev, sl :: rest =>
    if sl.c ≠ prev then
      (if sl.c ≠ 0 then 1 + groupsAux sl.c rest else groupsAux sl.c rest)
    else groupsAux prev rest

/-- Number of adjacent distinct non-zero color groups in a bottle. -/
def groups (l : List Slot) : Nat := groupsAux 0 l

/-- The contribution of one bottle to `heuristic`'s accumulator `h`:
0 for empty or mono-full bottles, else `max(1, groups − 1)`. -/
def bottleTerm (b : Bottle) : Int :=
  if b.slots.isEmpty then 0
  else if b.isMonoFull then 0
  else max 1 ((groups b.slots : Int) - 1)

/-- `heuristic` from `Solver.cpp`: for every non-empty, non-mono-full
bottle add `max(1, groups − 1)`; subtract `min(2, emptyCount)`; clamp at 0. -/
def heuristic (s : State) : Int :=
  let h : Int := (s.B.map bottleTerm).sum
  let empty : Int := (s.B.countP fun b => b.slots.isEmpty : Nat)
  max 0 (h - min 2 empty)

/-- A candidate move with its ordering preference (`Cand` in the source). -/
structure Cand where
  m : Move
  prefer : Bool
deriving Repr, DecidableEq

/-- The move-candidate enumeration shared by the IDA* expansion and the
solution counter: all ordered pairs `i ≠ j` with `canPour(i, j)`,
preferring pours onto a non-empty destination of matching top color. -/
def genCands (s : State) : List Cand :=
  (List.range s.B.length).flatMap fun i =>
    (List.range s.B.length).filterMap fun j =>
      if i = j then Option.none
      else
        match s.canPour i j with
        | Option.none => Option.none
        | Option.some amt =>
          let bi := s.B.getD i {}
          let bj := s.B.getD j {}
          Option.some ({ m := { «from» := i, «to» := j, amount := amt }
                         prefer := !bj.isEmpty && bi.topColor = bj.topColor } : Cand)

/-- `std::stable_sort` with comparator `a.prefer > b.prefer` is exactly a
stable partition: preferred candidates first, both halves in original order. -/
def orderedCands (s : State) : List Cand :=
  let cs := genCands s
  cs.filter (fun c => c.prefer) ++ cs.filter (fun c => !c.prefer)

/-- Mutable context captured by the `dfs` lambda in `Solver::solve`:
clock-query counter, `searchTimedOut`, the per-iteration visited set,
the current `path`, and `solutionMoves`/`foundPath` (as an `Option`). -/
structure Ctx where
  tick : Nat := 0
  timedOut : Bool := false
  visited : List Nat := []
  path : List Move := []
  found : Option (List Move) := Option.none
deriving Repr, DecidableEq

/-- One `timeOk()` query against the clock oracle. -/
def pollTime (tk : Nat → Bool) (ctx : Ctx) : Bool × Ctx :=
  (tk ctx.tick, { ctx with tick := ctx.tick + 1 })

/-- `std::numeric_limits<int>::max()`. -/
def intMax : Int := 2147483647

/-- The candidate loop inside the IDA* `dfs`: push the move on the path,
recurse (`recur`), pop, propagate a negative (solved) result immediately,
otherwise fold the returned `f`-value into `minNext` and stop early when
the search has timed out. -/
def childLoop (recur : Move → Ctx → Int × Ctx) : List Cand → Int → Ctx → Int × Ctx
  | [], minNext, ctx => (minNext, ctx)
  | c :: rest, minNext, ctx =>
    let ctx1 := { ctx with path := ctx.path ++ [c.m] }
    let r := recur c.m ctx1
    let ctx2 := { r.2 with path := if r.2.path.isEmpty then r.2.path else r.2.path.dropLast }
    if r.1 < 0 then (r.1, ctx2)
    else
      let minNext' := if r.1 < minNext then r.1 else minNext
      if ctx2.timedOut then (minNext', ctx2)
      else childLoop recur rest minNext' ctx2

/-- The recursive IDA* `dfs` from `Solver::solve`.  Returns the C++
return value (`f`-excess, `INT_MAX`, or `-g` on success) with the
updated context.  The fuel only bounds the recursion depth; the source's
recursion depth is itself bounded by `bound + 1` because `heuristic ≥ 0`
forces `f > bound` at depth `g > bound`, so a call with
`fuel ≥ bound + 2` never exhausts it. -/
def dfs (tk : Nat → Bool) : Nat → State → Int → Int → Ctx → Int × Ctx
  | 0, _, _, _, ctx => (intMax, ctx)
  | Nat.succ fuel, s, g, bound, ctx =>
    let q := pollTime tk ctx
    if !q.1 then (intMax, { q.2 with timedOut := true })
    else
      let ctx := q.2
      let f := g + heuristic s
      if f > bound then (f, ctx)
      else if s.isSolved then
        let ctx :=
          match ctx.found with
          | Option.none => { ctx with found := Option.some ctx.path }
          | Option.some _ => ctx
        (-g, ctx)
      else
        let h := s.hash
        if ctx.visited.contains h then (intMax, ctx)
        else
          let ctx := { ctx with visited := h :: ctx.visited }
          childLoop (fun m c => dfs tk fuel (s.apply m) (g + 1) bound c) (orderedCands s) intMax ctx

/-- The IDA* deepening loop (`while (true)` in `Solver::solve`).
Returns `(some solvedDepth | none, final bound, context)`.  Each inner
`dfs` gets fuel `bound + 2`, which it can never exhaust (see `dfs`);
the outer fuel models the budget-bounded number of deepening rounds,
and running out is reported as a timeout exactly like a failed clock
query. -/
def solveLoop (tk : Nat → Bool) (ss : State) : Nat → Int → Ctx → Option Int × Int × Ctx
  | 0, bound, ctx => (Option.none, bound, { ctx with timedOut := true })
  | Nat.succ fuel, bound, ctx =>
    let q := pollTime tk ctx
    if !q.1 then (Option.none, bound, { q.2 with timedOut := true })
    else
      let ctx := { q.2 with visited := [] }
      let r := dfs tk (bound.toNat + 2) ss 0 bound ctx
      if r.1 < 0 then (Option.some (-r.1), bound, r.2)
      else if r.2.timedOut ∨ r.1 = intMax then (Option.none, bound, { r.2 with timedOut := true })
      else solveLoop tk ss fuel r.1 r.2

/-- `SolutionCountResult` from `Solver.cpp`. -/
structure SolutionCountResult where
  count : Int := 0
  exhaustive : Bool := false
  timedOut : Bool := false
  limitHit : Bool := false
deriving Repr, DecidableEq

/-- Mutable context of `countMinimalSolutions`: clock counter, result
flags and the `bestDepth` transposition map (an association list keyed
by state hash). -/
structure CCtx where
  tick : Nat := 0
  count : Int := 0
  timedOut : Bool := false
  limitHit : Bool := false
  bestDepth : List (Nat × Int) := []
deriving Repr, DecidableEq

/-- `bestDepth[h] = d` (insert-or-assign on the association list). -/
def assocSet (l : List (Nat × Int)) (k : Nat) (v : Int) : List (Nat × Int) :=
  if (l.lookup k).isSome then l.map (fun kv => if kv.1 = k then (k, v) else kv)
  else (k, v) :: l

/-- The candidate loop of the counting `dfs`: skip a successor whose
hash was already reached at depth `≤ depth + 1`, otherwise record the
new depth and recurse; stop as soon as the count is capped or time is up. -/
def countChildren (cur : State) (depth : Int) (recur : State → CCtx → CCtx) :
    List Cand → CCtx → CCtx
  | [], cc => cc
  | c :: rest, cc =>
    let next := cur.apply c.m
    let h := next.hash
    let skip : Bool :=
      match cc.bestDepth.lookup h with
      | Option.some d => decide (d ≤ depth + 1)
      | Option.none => false
    if skip then countChildren cur depth recur rest cc
    else
      let cc := { cc with bestDepth := assocSet cc.bestDepth h (depth + 1) }
      let cc := recur next cc
      if cc.timedOut || cc.limitHit then cc
      else countChildren cur depth recur rest cc

/-- The recursive `dfs` of `countMinimalSolutions`.  As with `dfs`, the
fuel bounds the recursion depth, which the source bounds by
`depthLimit` (`if (depth >= depthLimit) return`), so fuel
`depthLimit + 2` is never exhausted. -/
def countDfs (tk : Nat → Bool) (maxCount depthLimit : Int) :
    Nat → State → Int → CCtx → CCtx
  | 0, _, _, cc => cc
  | Nat.succ fuel, cur, depth, cc =>
    if cc.timedOut || cc.limitHit then cc
    else if !(tk cc.tick) then { cc with tick := cc.tick + 1, timedOut := true }
    else
      let cc := { cc with tick := cc.tick + 1 }
      if cur.isSolved then
        if depth ≤ depthLimit then
          let cc := { cc with count := cc.count + 1 }
          if maxCount ≤ cc.count then { cc with limitHit := true } else cc
        else cc
      else if depthLimit ≤ depth then cc
      else
        countChildren cur depth
          (fun next c => countDfs tk maxCount depthLimit fuel next (depth + 1) c)
          (orderedCands cur) cc

/-- `countMinimalSolutions(start, depthLimit, maxCount, timeOk)`;
returns the result together with the clock-query counter after the run. -/
def countMinimalSolutions (tk : Nat → Bool) (start : State)
    (depthLimit maxCount : Int) (tick : Nat) : SolutionCountResult × Nat :=
  if depthLimit < 0 then ({ count := 0, exhaustive := true }, tick)
  else
    let cc0 : CCtx := { tick := tick, bestDepth := [(start.hash, 0)] }
    let cc := countDfs tk maxCount depthLimit (depthLimit.toNat + 2) start 0 cc0
    ({ count := cc.count
       exhaustive := !cc.timedOut && !cc.limitHit
       timedOut := cc.timedOut
       limitHit := cc.limitHit }, cc.tick)

/-- `Solver::solve`.  `tk` is the wall-clock oracle (`timeOk()`), and
`loopFuel` bounds the number of IDA* deepening rounds (the source bounds
them by wall clock only).  The C++ `budgetMs` member is folded into `tk`. -/
def Solver.solve (tk : Nat → Bool) (loopFuel : Nat) (start : State) : SolveResult :=
  let solveStart := normalizeForSolve start
  if solveStart.isSolved then
    { solved := true, minMoves := 0, distinctSolutions := 1, solutionCountExhaustive := true }
  else
    let bound := heuristic solveStart
    let r := solveLoop tk solveStart loopFuel bound ({} : Ctx)
    match r.1 with
    | Option.none =>
      { solved := false, timedOut := r.2.2.timedOut, minMoves := r.2.1 }
    | Option.some solvedDepth =>
      let base : SolveResult :=
        { solved := true
          minMoves := solvedDepth
          solutionMoves := r.2.2.found.getD []
          distinctSolutions := 1 }
      let ctx := r.2.2
      if !(tk ctx.tick) then { base with timedOut := true }
      else
        let cres := countMinimalSolutions tk solveStart solvedDepth 4 (ctx.tick + 1)
        let stats := cres.1
        let r1 := if stats.timedOut then { base with timedOut := true } else base
        let r2 := if 0 < stats.count then { r1 with distinctSolutions := stats.count } else r1
        let r3 := { r2 with solutionCountExhaustive := stats.exhaustive
                            solutionCountLimited := stats.limitHit }
        let r4 :=
          if !r3.solutionCountExhaustive then
            { r3 with distinctSolutions := max 1 r3.distinctSolutions }
          else r3
        if !(tk cres.2) then { r4 with timedOut := true } else r4

/-- The tail of `Solver::solve` after the counting phase: the
`r1`/`r2`/`r3`/`r4` result-flag post-processing applied to the base
result, the counting statistics and the final clock query
(`clock2 = timeOk()`).  Definitionally equal to the corresponding
segment of `Solver.solve`. -/
def solvePost (base : SolveResult) (stats : SolutionCountResult) (clock2 : Bool) : SolveResult :=
  let r1 := if stats.timedOut then { base with timedOut := true } else base
  let r2 := if 0 < stats.count then { r1 with distinctSolutions := stats.count } else r1
  let r3 := { r2 with solutionCountExhaustive := stats.exhaustive
                      solutionCountLimited := stats.limitHit }
  let r4 := if !r3.solutionCountExhaustive then
      { r3 with distinctSolutions := max 1 r3.distinctSolutions }
    else r3
  if !clock2 then { r4 with timedOut := true } else r4

/-! ## CSV encoding (`src/io/Csv.cpp`) -/

/-- One bottle's token in `encodeMap`: nothing for an empty bottle;
otherwise `capacity` cells bottom → top, each the decimal rendering of
the slot color (or `'0'` padding above the filled part). -/
def encodeBottleMap (b : Bottle) : String :=
  if b.slots.isEmpty then ""
  else
    String.join ((List.range b.capacity.toNat).map fun k =>
      if k < b.slots.length then toString (b.slots.getD k {}).c else "0")

/-- The bottle-joining loop shared by the three encoders: tokens with
`'#'` between consecutive bottles. -/
def joinTokens : List String → String
  | [] => ""
  | [tok] => tok
  | tok :: rest => tok ++ "#" ++ joinTokens rest

/-- `encodeMap`. -/
def encodeMap (s : State) : String :=
  joinTokens (s.B.map encodeBottleMap)

/-- One bottle's token in `encodeSlotGimmick`: always `capacity` bits,
`1` where a stored slot is hidden. -/
def encodeBottleHidden (b : Bottle) : String :=
  String.join ((List.range b.capacity.toNat).map fun k =>
    if k < b.slots.length ∧ (b.slots.getD k {}).hidden then "1" else "0")

/-- `encodeSlotGimmick`. -/
def encodeSlotGimmick (s : State) : String :=
  joinTokens (s.B.map encodeBottleHidden)

/-- `encodeStackGimmick`: per bottle `kind_param`, `param` being the
Cloth target (0 otherwise). -/
def encodeStackGimmick (s : State) : String :=
  joinTokens (s.B.map fun b =>
    let param := if b.gimmick.kind = StackGimmickKind.Cloth then b.gimmick.clothTarget else 0
    toString b.gimmick.kind.val ++ "_" ++ toString param)

/-- `CsvRow` (`Csv.hpp`), generic in the type `Q` standing for the
`double DifficultyScore` field (floating point stays abstract). -/
structure CsvRow (Q : Type) where
  index : Int
  map : String
  slot_gimmick : String
  stack_gimmick : String
  NumberOfItem : Int
  NumberOfSlot : Int
  NumberOfStack : Int
  MixCount : Int
  MinMoves : Int
  DifficultyScore : Q
  DifficultyLabel : String

/-- `CsvIO::encode`. -/
def CsvIO.encode {Q : Type} (index : Int) (s : State) (mix minMoves : Int)
    (diffScore : Q) (diffLabel : String) : CsvRow Q :=
  { index := index
    map := encodeMap s
    slot_gimmick := encodeSlotGimmick s
    stack_gimmick := encodeStackGimmick s
    NumberOfItem := s.p.numColors
    NumberOfSlot := s.p.capacity
    NumberOfStack := s.p.numBottles
    MixCount := mix
    MinMoves := minMoves
    DifficultyScore := diffScore
    DifficultyLabel := diffLabel }

/-! ## Generator (`src/core/Generator.cpp`)

All stochastic choices thread the 64-bit RNG state explicitly.  The
floating-point difficulty scorer (`Solver::estimateDifficulty` plus
`labelForScore`) is abstracted as a function parameter `ed`; every
theorem about `makeOne` is proved for an arbitrary such function. -/

/-- `GenOptions` (`Generator.hpp`).  `randomizeHeights` is read by
`Generator.cpp` (the shipped header predates it); its default is
immaterial to the claims. -/
structure GenOptions where
  mixMin : Int := 60
  mixMax : Int := 180
  seed : Nat := 0xA17C3B5ECAFEBEEF
  gimmickPlacementTries : Int := 30
  solveTimeMs : Int := 2500
  startMixed : Bool := true
  reservedEmpty : Int := 2
  maxRunPerBottle : Int := 2
  randomizeHeights : Bool := false
deriving Repr, DecidableEq

/-- The `Generator` object state: `Params p; GenOptions opt; RNG rng;
std::optional<State> base`. -/
structure Generator where
  p : Params
  opt : GenOptions
  rng : Nat
  base : Option State
deriving Repr, DecidableEq

/-- The `Generator` constructor:
`rng.s = opt.seed ? opt.seed : 0xBADC0FFEEULL` and `base` unset. -/
def Generator.make (p : Params) (opt : GenOptions) : Generator :=
  { p := p, opt := opt
    rng := if opt.seed ≠ 0 then opt.seed else 0xBADC0FFEE
    base := Option.none }

/-- The fields a constructed `Generator` actually reads after
construction: everything except `opt.seed`, whose only use in the
source is the constructor's RNG seeding.  The generator routines below
are defined on this view. -/
structure GenCore where
  p : Params
  mixMin : Int
  mixMax : Int
  gimmickPlacementTries : Int
  solveTimeMs : Int
  startMixed : Bool
  reservedEmpty : Int
  maxRunPerBottle : Int
  randomizeHeights : Bool
  base : Option State
deriving Repr, DecidableEq

/-- Projection of a `Generator` onto the fields read by `makeOne`. -/
def Generator.core (g : Generator) : GenCore :=
  { p := g.p
    mixMin := g.opt.mixMin
    mixMax := g.opt.mixMax
    gimmickPlacementTries := g.opt.gimmickPlacementTries
    solveTimeMs := g.opt.solveTimeMs
    startMixed := g.opt.startMixed
    reservedEmpty := g.opt.reservedEmpty
    maxRunPerBottle := g.opt.maxRunPerBottle
    randomizeHeights := g.opt.randomizeHeights
    base := g.base }

/-- `std::clamp`. -/
def clampInt (v lo hi : Int) : Int :=
  if v < lo then lo else if hi < v then hi else v

/-- The height-filling loop used by `computeDefaultHeights` (both
phases) and the fallback of `computeHeightsFromTemplate`: assign
`min(capacity, cells)` to each index while cells remain. -/
def heightsFill (capacity : Int) : List Nat → Int → List Int → List Int × Int
  | [], cells, heights => (heights, cells)
  | i :: rest, cells, heights =>
    if 0 < cells then
      let take := min capacity cells
      heightsFill capacity rest (cells - take) (heights.set i take)
    else (heights, cells)

/-- `Generator::computeDefaultHeights`. -/
def computeDefaultHeights (gc : GenCore) : List Int :=
  let heights := List.replicate gc.p.numBottles.toNat (0 : Int)
  let fillable := clampInt (gc.p.numBottles - max 0 gc.reservedEmpty) 1 gc.p.numBottles
  let cells := gc.p.numColors * gc.p.capacity
  let r1 := heightsFill gc.p.capacity (List.range fillable.toNat) cells heights
  let r2 := heightsFill gc.p.capacity
    ((List.range gc.p.numBottles.toNat).drop fillable.toNat) r1.2 r1.1
  r2.1

/-- Fisher–Yates-style shuffle loop `for i: swap(l[i], l[irange(i, n-1)])`
used on `order` in `computeRandomizedHeights`. -/
def shuffleFromI (l : List Int) (rng : Nat) : List Int × Nat :=
  (List.range l.length).foldl
    (fun (acc : List Int × Nat) (i : Nat) =>
      let r := RNG.irange acc.2 (Int.ofNat i) ((l.length : Int) - 1)
      let j := r.1.toNat
      let a := acc.1.getD i 0
      let b := acc.1.getD j 0
      ((acc.1.set i b).set j a, r.2))
    (l, rng)

/-- `Generator::computeRandomizedHeights`.  `/` is C++ truncating
integer division (`Int.tdiv`); division by a non-positive capacity is
undefined behaviour in the source. -/
def computeRandomizedHeights (gc : GenCore) (rng : Nat) : List Int × Nat :=
  let heights := List.replicate gc.p.numBottles.toNat (0 : Int)
  if gc.p.numBottles ≤ 0 then (heights, rng)
  else
    let totalCells := gc.p.numColors * gc.p.capacity
    if totalCells ≤ 0 then (heights, rng)
    else
      let minActive := Int.tdiv (totalCells + gc.p.capacity - 1) gc.p.capacity
      let preferredActive :=
        clampInt (gc.p.numBottles - max 0 gc.reservedEmpty) minActive gc.p.numBottles
      let ra :=
        if preferredActive * gc.p.capacity = totalCells ∧ preferredActive < gc.p.numBottles then
          RNG.irange rng (preferredActive + 1) gc.p.numBottles
        else
          RNG.irange rng minActive preferredActive
      let active := clampInt ra.1 minActive gc.p.numBottles
      let order0 := (List.range gc.p.numBottles.toNat).map Int.ofNat
      let sh := shuffleFromI order0 ra.2
      let order := sh.1
      let main := (List.range active.toNat).foldl
        (fun (acc : List Int × Int × Nat) (idx : Nat) =>
          let heights := acc.1
          let remaining := acc.2.1
          let rng := acc.2.2
          let bottle := order.getD idx 0
          let bottlesLeft := active - (idx : Int)
          let maxRemainingCapacity := (bottlesLeft - 1) * gc.p.capacity
          let minTake0 := max 0 (remaining - maxRemainingCapacity)
          let maxTake := min gc.p.capacity remaining
          let minTake1 := if bottlesLeft ≤ remaining then max 1 minTake0 else minTake0
          let minTake := if maxTake < minTake1 then maxTake else minTake1
          let rt :=
            if (idx : Int) = active - 1 then (remaining, rng)
            else RNG.irange rng minTake maxTake
          (heights.set bottle.toNat rt.1, remaining - rt.1, rt.2))
        (heights, totalCells, sh.2)
      let leftover := ((List.range gc.p.numBottles.toNat).drop active.toNat).foldl
        (fun (acc : List Int × Int) (idx : Nat) =>
          let heights := acc.1
          let remaining := acc.2
          if 0 < remaining then
            let bottle := order.getD idx 0
            let take := min (gc.p.capacity - heights.getD bottle.toNat 0) remaining
            (heights.set bottle.toNat (heights.getD bottle.toNat 0 + take), remaining - take)
          else acc)
        (main.1, main.2.1)
      (leftover.1, main.2.2)

/-- `Generator::computeHeightsFromTemplate`. -/
def computeHeightsFromTemplate (gc : GenCore) (baseTpl : State) : List Int :=
  let heights0 := List.replicate gc.p.numBottles.toNat (0 : Int)
  let m := min heights0.length baseTpl.B.length
  let heights := (List.range m).foldl
    (fun (hs : List Int) i => hs.set i (min ((baseTpl.B.getD i {}).size) gc.p.capacity))
    heights0
  let sum := ((List.range m).map fun i => heights.getD i 0).sum
  let expected := gc.p.numColors * gc.p.capacity
  if sum ≠ expected then
    (heightsFill gc.p.capacity (List.range gc.p.numBottles.toNat) expected heights).1
  else heights

/-- `Generator::SupportSpec`. -/
structure SupportSpec where
  bottle : Int := -1
  color : Color := 0
deriving Repr, DecidableEq

/-- Mutable state of `buildSupportPlan`: `colorOwner` (indexed by
color, `-1` = unowned), `bottleReserved` and the accumulated plan. -/
structure PlanSt where
  owner : List Int
  reserved : List Bool
  plan : List SupportSpec
deriving Repr, DecidableEq

/-- `tryAssign` inside `buildSupportPlan`. -/
def tryAssign (gc : GenCore) (heights : List Int) (st : PlanSt) (col : Color) (idx : Int) :
    Bool × PlanSt :=
  if idx < 0 ∨ gc.p.numBottles ≤ idx then (false, st)
  else if heights.getD idx.toNat 0 ≠ gc.p.capacity then (false, st)
  else if st.reserved.getD idx.toNat false then (false, st)
  else
    (true,
      { owner := st.owner.set col idx
        reserved := st.reserved.set idx.toNat true
        plan := st.plan ++ [{ bottle := idx, color := col }] })

/-- The final scan of `ensureColor`: first assignable bottle index. -/
def ensureScan (gc : GenCore) (heights : List Int) (col : Color) :
    List Nat → PlanSt → Int × PlanSt
  | [], st => (-1, st)
  | i :: rest, st =>
    let r := tryAssign gc heights st col (Int.ofNat i)
    if r.1 then (r.2.owner.getD col (-1), r.2)
    else ensureScan gc heights col rest st

/-- `ensureColor` inside `buildSupportPlan`. -/
def ensureColor (gc : GenCore) (heights : List Int) (st : PlanSt)
    (col : Color) (preferIndex : Int) (strict : Bool) : Int × PlanSt :=
  if (col : Int) < 1 ∨ gc.p.numColors < (col : Int) then (-1, st)
  else if 0 ≤ st.owner.getD col (-1) then (st.owner.getD col (-1), st)
  else
    let r1 := tryAssign gc heights st col preferIndex
    if r1.1 then (r1.2.owner.getD col (-1), r1.2)
    else if strict then (-1, st)
    else
      let r2 := tryAssign gc heights st col ((col : Int) - 1)
      if r2.1 then (r2.2.owner.getD col (-1), r2.2)
      else ensureScan gc heights col (List.range gc.p.numBottles.toNat) st

/-- `pickUnusedColor` inside `buildSupportPlan`. -/
def pickUnusedColor (gc : GenCore) (st : PlanSt) : Color :=
  match (List.range gc.p.numColors.toNat).findSome? (fun k =>
    let c : Color := k + 1
    if st.owner.getD c (-1) = -1 then Option.some c else Option.none) with
  | Option.some c => c
  | Option.none => 0

/-- `satisfyBush` inside `buildSupportPlan`. -/
def satisfyBush (gc : GenCore) (heights : List Int) (st : PlanSt) (idx : Int) :
    Bool × PlanSt :=
  if idx < 0 ∨ gc.p.numBottles ≤ idx then (false, st)
  else if heights.getD idx.toNat 0 ≠ gc.p.capacity then (false, st)
  else if st.reserved.getD idx.toNat false then (true, st)
  else
    let col := pickUnusedColor gc st
    if col = 0 then (false, st)
    else
      let r := ensureColor gc heights st col idx true
      (0 ≤ r.1, r.2)

/-- `Generator::buildSupportPlan`. -/
def buildSupportPlan (gc : GenCore) (heights : List Int) : List SupportSpec :=
  match gc.base with
  | Option.none => []
  | Option.some base =>
    let st0 : PlanSt :=
      { owner := List.replicate (gc.p.numColors.toNat + 1) (-1 : Int)
        reserved := List.replicate gc.p.numBottles.toNat false
        plan := [] }
    let m := min base.B.length heights.length
    let st1 := (List.range m).foldl
      (fun (st : PlanSt) i =>
        let g := (base.B.getD i {}).gimmick
        if g.kind = StackGimmickKind.Cloth then
          (ensureColor gc heights st g.clothTarget (Int.ofNat i) false).2
        else st)
      st0
    let st2 := (List.range m).foldl
      (fun (st : PlanSt) i =>
        let g := (base.B.getD i {}).gimmick
        if g.kind = StackGimmickKind.Bush then
          let r1 :=
            if 0 < i then satisfyBush gc heights st ((i : Int) - 1) else (false, st)
          if !r1.1 ∧ i + 1 < base.B.length then
            (satisfyBush gc heights r1.2 ((i : Int) + 1)).2
          else r1.2
        else st)
      st1
    st2.plan

/-- Mutable state threaded through `createRandomMixedWithHeights`'s
`attemptBuild` lambda: bottles under construction, per-color remaining
counts, the per-bottle reservation bookkeeping, the per-bottle Vine
fixed colors and the RNG. -/
structure MixSt where
  B : List Bottle
  remaining : List Int
  reservedColor : List Color
  reservedCount : List Int
  reservedLimit : List Int
  vineFixed : List Color
  rng : Nat
deriving Repr, DecidableEq

/-- The plan-application loop at the top of `attemptBuild`: seed each
reserved bottle with (at most one) slot of its reserved color. -/
def applySpec (gc : GenCore) (heights : List Int) (ms : MixSt) (spec : SupportSpec) : MixSt :=
  if spec.bottle < 0 ∨ gc.p.numBottles ≤ spec.bottle then ms
  else if (spec.color : Int) < 1 ∨ gc.p.numColors < (spec.color : Int) then ms
  else
    let target := heights.getD spec.bottle.toNat 0
    if target ≤ 0 then ms
    else
      let available := ms.remaining.getD spec.color 0
      if available ≤ 0 then ms
      else
        let maxAssignable : Int := if 0 < target then 1 else 0
        let assign0 := min maxAssignable available
        let assign :=
          if assign0 ≤ 0 ∧ 0 < maxAssignable ∧ 0 < available then 1 else assign0
        let b := ms.B.getD spec.bottle.toNat {}
        { ms with
          B := ms.B.set spec.bottle.toNat
            { b with slots := List.replicate assign.toNat { c := spec.color, hidden := false } }
          remaining := ms.remaining.set spec.color (available - assign)
          reservedColor := ms.reservedColor.set spec.bottle.toNat spec.color
          reservedCount := ms.reservedCount.set spec.bottle.toNat assign
          reservedLimit := ms.reservedLimit.set spec.bottle.toNat maxAssignable }

/-- `runlen` inside `attemptBuild`: length of the same-color run at the
top of a bottle (hidden flags are ignored here, unlike `topChunk`). -/
def runLenAux (c : Color) : List Slot → Nat
  | [] => 0
  | s :: rest => if s.c = c then 1 + runLenAux c rest else 0

def runlen (b : Bottle) (c : Color) : Nat := runLenAux c b.slots.reverse

/-- `respectsVine` inside `attemptBuild`. -/
def respectsVine (ms : MixSt) (bi : Nat) (c : Color) : Bool :=
  let b := ms.B.getD bi {}
  if b.gimmick.kind ≠ StackGimmickKind.Vine then true
  else
    let fixed := ms.vineFixed.getD bi 0
    if fixed = 0 ∧ !b.slots.isEmpty then
      let f2 := b.headColor
      if !(b.slots.all fun s => s.c = f2) then false
      else f2 = 0 ∨ c = f2
    else fixed = 0 ∨ c = fixed

/-- `allowed` inside `attemptBuild`. -/
def allowedPlace (gc : GenCore) (heights : List Int) (ms : MixSt) (bi : Nat) (c : Color) : Bool :=
  let b := ms.B.getD bi {}
  if heights.getD bi 0 ≤ (b.slots.length : Int) then false
  else if b.gimmick.kind = StackGimmickKind.Cloth ∧ b.gimmick.clothTarget = c then false
  else if ms.reservedColor.getD bi 0 = c ∧
          ms.reservedLimit.getD bi intMax ≤ ms.reservedCount.getD bi 0 then false
  else if 0 < gc.maxRunPerBottle ∧ gc.maxRunPerBottle ≤ (runlen b c : Int) then false
  else if !respectsVine ms bi c then false
  else true

/-- `placeColor` inside `attemptBuild`. -/
def placeColor (ms : MixSt) (bi : Nat) (c : Color) : MixSt :=
  let b := ms.B.getD bi {}
  { ms with
    B := ms.B.set bi { b with slots := b.slots ++ [{ c := c, hidden := false }] }
    reservedCount :=
      if ms.reservedColor.getD bi 0 = c then
        ms.reservedCount.set bi (ms.reservedCount.getD bi 0 + 1)
      else ms.reservedCount
    vineFixed :=
      if b.gimmick.kind = StackGimmickKind.Vine ∧ ms.vineFixed.getD bi 0 = 0 then
        ms.vineFixed.set bi c
      else ms.vineFixed }

/-- The 64-try random placement loop for one bag color (each try draws
`irange(0, numBottles-1)` whether or not the draw is accepted). -/
def tryPlace (gc : GenCore) (heights : List Int) (c : Color) : Nat → MixSt → MixSt × Bool
  | 0, ms => (ms, false)
  | Nat.succ n, ms =>
    let r := RNG.irange ms.rng 0 (gc.p.numBottles - 1)
    let ms := { ms with rng := r.2 }
    let bi := r.1.toNat
    if allowedPlace gc heights ms bi c then (placeColor ms bi c, true)
    else tryPlace gc heights c n ms

/-- Placement of one bag color: 64 random tries, then the three
deterministic fallback scans of `attemptBuild`. -/
def placeOne (gc : GenCore) (heights : List Int) (ms : MixSt) (c : Color) : MixSt :=
  let t := tryPlace gc heights c 64 ms
  if t.2 then t.1
  else
    let ms := t.1
    match (List.range gc.p.numBottles.toNat).find? (fun bi => allowedPlace gc heights ms bi c) with
    | Option.some bi => placeColor ms bi c
    | Option.none =>
      match (List.range gc.p.numBottles.toNat).find? (fun bi =>
        let b := ms.B.getD bi {}
        !(heights.getD bi 0 ≤ (b.slots.length : Int)) &&
        !(ms.reservedColor.getD bi 0 = c ∧
          ms.reservedLimit.getD bi intMax ≤ ms.reservedCount.getD bi 0) &&
        respectsVine ms bi c) with
      | Option.some bi => placeColor ms bi c
      | Option.none =>
        match (List.range gc.p.numBottles.toNat).find? (fun bi =>
          ((ms.B.getD bi {}).slots.length : Int) < heights.getD bi 0 &&
          respectsVine ms bi c) with
        | Option.some bi => placeColor ms bi c
        | Option.none => ms

/-- Swap two slots inside one slot list. -/
def slotSwap (l : List Slot) (i j : Nat) : List Slot :=
  let a := l.getD i {}
  let b := l.getD j {}
  (l.set i b).set j a

/-- The post-deal reservation shuffle of `attemptBuild`: move each
reserved seed slot to a random index within its bottle. -/
def reservedShuffle (ms : MixSt) : MixSt :=
  (List.range ms.B.length).foldl
    (fun (ms : MixSt) bi =>
      if ms.reservedColor.getD bi 0 = 0 ∨ ms.reservedCount.getD bi 0 = 0 then ms
      else
        let b := ms.B.getD bi {}
        if b.slots.isEmpty then ms
        else
          match b.slots.findIdx? (fun s => s.c = ms.reservedColor.getD bi 0) with
          | Option.none => ms
          | Option.some fromIdx =>
            if 1 < b.slots.length then
              let r := RNG.irange ms.rng 0 ((b.slots.length : Int) - 1)
              let toIdx := r.1.toNat
              if toIdx ≠ fromIdx then
                { ms with rng := r.2
                          B := ms.B.set bi { b with slots := slotSwap b.slots fromIdx toIdx } }
              else { ms with rng := r.2 }
            else ms)
    ms

/-- The swap step of `fixClothStart`: exchange the colors (not the
hidden flags) of slot `i` of bottle `bi` and the first non-target slot
of any other bottle. -/
def fixClothSwapTarget (B : List Bottle) (bi i : Nat) (t : Color) : List Bottle :=
  let hit := (List.range B.length).findSome? fun dj =>
    if dj = bi then Option.none
    else ((B.getD dj {}).slots.findIdx? (fun s => s.c ≠ t)).map fun k => (dj, k)
  match hit with
  | Option.none => B
  | Option.some (dj, k) =>
    let bb := B.getD bi {}
    let db := B.getD dj {}
    let a := bb.slots.getD i {}
    let d := db.slots.getD k {}
    let B1 := B.set bi { bb with slots := bb.slots.set i { a with c := d.c } }
    B1.set dj { db with slots := db.slots.set k { d with c := a.c } }

/-- `Generator::fixClothStart`: remove the target color from inside
each Cloth bottle by single swaps with non-target slots elsewhere. -/
def fixClothStart (st : State) : State :=
  { st with
    B := (List.range st.B.length).foldl
      (fun B bi =>
        let b := B.getD bi {}
        if b.gimmick.kind ≠ StackGimmickKind.Cloth then B
        else
          let t := b.gimmick.clothTarget
          if t = 0 then B
          else
            (List.range b.slots.length).foldl
              (fun B i =>
                if ((B.getD bi {}).slots.getD i {}).c = t then fixClothSwapTarget B bi i t
                else B)
              B)
      st.B }

/-- `attemptBuild` from `Generator::createRandomMixedWithHeights`. -/
def attemptBuild (gc : GenCore) (heights : List Int) (rng0 : Nat) : State × Nat :=
  let B0 := (List.range gc.p.numBottles.toNat).map fun i =>
    ({ capacity := gc.p.capacity
       gimmick :=
         match gc.base with
         | Option.some b => (b.B.getD i {}).gimmick
         | Option.none => {} } : Bottle)
  let plan := buildSupportPlan gc heights
  let ms0 : MixSt :=
    { B := B0
      remaining := List.replicate (gc.p.numColors.toNat + 1) gc.p.capacity
      reservedColor := List.replicate gc.p.numBottles.toNat 0
      reservedCount := List.replicate gc.p.numBottles.toNat 0
      reservedLimit := List.replicate gc.p.numBottles.toNat intMax
      vineFixed := List.replicate gc.p.numBottles.toNat 0
      rng := rng0 }
  let ms1 := plan.foldl (applySpec gc heights) ms0
  let bag0 := (List.range gc.p.numColors.toNat).flatMap fun k =>
    List.replicate (ms1.remaining.getD (k + 1) 0).toNat ((k + 1 : Nat) : Color)
  let sh := (List.range bag0.length).foldl
    (fun (acc : List Color × Nat) (i : Nat) =>
      let r := RNG.irange acc.2 0 (if bag0.isEmpty then 0 else (bag0.length : Int) - 1)
      let j := r.1.toNat
      let a := acc.1.getD i 0
      let b := acc.1.getD j 0
      (((acc.1.set i b).set j a), r.2))
    (bag0, ms1.rng)
  let ms2 := { ms1 with rng := sh.2 }
  let ms3 := sh.1.foldl (placeOne gc heights) ms2
  let ms4 := reservedShuffle ms3
  let stA : State := { p := gc.p, B := ms4.B, locks := {} }
  let stB := fixClothStart stA
  let stC :=
    match gc.base with
    | Option.none => stB
    | Option.some base =>
      { stB with
        B := (List.range stB.B.length).foldl
          (fun B bi =>
            if bi < base.B.length then
              let tpl := base.B.getD bi {}
              let b := B.getD bi {}
              let lim := min b.slots.length tpl.slots.length
              B.set bi
                { b with
                  slots := (List.range b.slots.length).map fun idx =>
                    let s := b.slots.getD idx {}
                    if idx < lim then { s with hidden := (tpl.slots.getD idx {}).hidden }
                    else s }
            else B)
          stB.B }
  (stC, ms4.rng)

/-- The `hasMonoFull` lambda of `createRandomMixedWithHeights` and the
pre-solved-stack scans. -/
def hasMonoFullState (st : State) : Bool :=
  st.B.any fun b => !b.isEmpty && b.isMonoFull

/-- Swap one slot of bottle `i` with one slot of bottle `j`. -/
def crossSwap (B : List Bottle) (i ii j jj : Nat) : List Bottle :=
  let a := (B.getD i {}).slots.getD ii {}
  let b := (B.getD j {}).slots.getD jj {}
  let B1 := B.set i { (B.getD i {}) with slots := (B.getD i {}).slots.set ii b }
  B1.set j { (B1.getD j {}) with slots := (B1.getD j {}).slots.set jj a }

/-- The inner slot scan of `breakPreSolvedStacks`: try swapping a random
slot of the mono bottle `i` with each differently-colored slot of
bottle `j`, keeping the first swap that leaves neither bottle mono-full. -/
def breakIdxScan (monoColor : Color) (i j : Nat) :
    List Nat → List Bottle × Nat → List Bottle × Nat × Bool
  | [], acc => (acc.1, acc.2, false)
  | idx :: rest, (B, rng) =>
    if ((B.getD j {}).slots.getD idx {}).c = monoColor then
      breakIdxScan monoColor i j rest (B, rng)
    else
      let r := RNG.irange rng 0 ((B.getD i {}).size - 1)
      let monoIdx := r.1.toNat
      let B' := crossSwap B i monoIdx j idx
      if !(B'.getD i {}).isMonoFull ∧ !(B'.getD j {}).isMonoFull then (B', r.2, true)
      else breakIdxScan monoColor i j rest (B, r.2)

/-- The bottle scan around `breakIdxScan` (non-Vine partners only). -/
def breakJScan (monoColor : Color) (i : Nat) :
    List Nat → List Bottle × Nat → List Bottle × Nat × Bool
  | [], acc => (acc.1, acc.2, false)
  | j :: rest, (B, rng) =>
    if j = i ∨ (B.getD j {}).gimmick.kind = StackGimmickKind.Vine then
      breakJScan monoColor i rest (B, rng)
    else
      let r := breakIdxScan monoColor i j (List.range (B.getD j {}).slots.length) (B, rng)
      if r.2.2 then r else breakJScan monoColor i rest (r.1, r.2.1)

/-- The top-swap fallback of `breakPreSolvedStacks`. -/
def breakTopScan (i : Nat) : List Nat → List Bottle → List Bottle × Bool
  | [], B => (B, false)
  | j :: rest, B =>
    if j = i then breakTopScan i rest B
    else
      let other := B.getD j {}
      if other.gimmick.kind = StackGimmickKind.Vine ∨ other.slots.isEmpty then
        breakTopScan i rest B
      else
        let B' := crossSwap B i ((B.getD i {}).slots.length - 1) j (other.slots.length - 1)
        if !(B'.getD i {}).isMonoFull then (B', true)
        else breakTopScan i rest B

/-- One pass over all bottles in `breakPreSolvedStacks`. -/
def breakBottleScan : List Nat → List Bottle × Nat × Bool → List Bottle × Nat × Bool
  | [], acc => acc
  | i :: rest, (B, rng, changed) =>
    let mono := B.getD i {}
    if mono.gimmick.kind = StackGimmickKind.Vine ∨ !(!mono.isEmpty && mono.isMonoFull) then
      breakBottleScan rest (B, rng, changed)
    else
      let monoColor := if mono.slots.isEmpty then 0 else mono.headColor
      let r := breakJScan monoColor i (List.range B.length) (B, rng)
      if r.2.2 then breakBottleScan rest (r.1, r.2.1, true)
      else
        let r2 := breakTopScan i (List.range B.length) r.1
        breakBottleScan rest (r2.1, r.2.1, changed || r2.2)

/-- The 8-iteration outer loop of `breakPreSolvedStacks`. -/
def breakIterLoop : Nat → List Bottle × Nat → List Bottle × Nat
  | 0, acc => acc
  | Nat.succ k, (B, rng) =>
    let r := breakBottleScan (List.range B.length) (B, rng, false)
    if r.2.2 then breakIterLoop k (r.1, r.2.1) else (r.1, r.2.1)

/-- `Generator::breakPreSolvedStacks`. -/
def breakPreSolvedStacks (st : State) (rng : Nat) : State × Nat :=
  let r := breakIterLoop 8 (st.B, rng)
  ({ st with B := r.1 }, r.2)

/-- The 3-iteration perturbation fallback of
`createRandomMixedWithHeights`. -/
def mixFallback : Nat → State × Nat → State × Nat
  | 0, acc => acc
  | Nat.succ k, (st, rng) =>
    if !hasMonoFullState st then (st, rng)
    else
      let r := breakPreSolvedStacks st rng
      mixFallback k (fixClothStart r.1, r.2)

/-- The 64-attempt loop of `createRandomMixedWithHeights` (the zero-fuel
case is unreachable: the function is always entered with 64 attempts). -/
def mixAttemptLoop (gc : GenCore) (heights : List Int) : Nat → Nat → State × Nat
  | 0, rng => (State.refreshLocks {}, rng)
  | Nat.succ n, rng =>
    let r := attemptBuild gc heights rng
    if !hasMonoFullState r.1 then (r.1.refreshLocks, r.2)
    else if n = 0 then
      let fb := mixFallback 3 r
      (fb.1.refreshLocks, fb.2)
    else mixAttemptLoop gc heights n r.2

/-- `Generator::createRandomMixedWithHeights`. -/
def createRandomMixedWithHeights (gc : GenCore) (heights : List Int) (rng : Nat) : State × Nat :=
  mixAttemptLoop gc heights 64 rng

/-- `Generator::createRandomMixed`. -/
def createRandomMixed (gc : GenCore) (rng : Nat) : State × Nat :=
  if gc.randomizeHeights then
    let r := computeRandomizedHeights gc rng
    createRandomMixedWithHeights gc r.1 r.2
  else
    createRandomMixedWithHeights gc (computeDefaultHeights gc) rng

/-- `Generator::createRandomMixedFromHeights`. -/
def createRandomMixedFromHeights (gc : GenCore) (baseTpl : State) (rng : Nat) : State × Nat :=
  createRandomMixedWithHeights gc (computeHeightsFromTemplate gc baseTpl) rng

/-- `Generator::canPourForGeneration`: the play rule without the
destination color-match check. -/
def canPourForGeneration (s : State) (f t : Int) : Option Int :=
  if f = t ∨ f < 0 ∨ t < 0 ∨ (s.B.length : Int) ≤ f ∨ (s.B.length : Int) ≤ t then
    Option.none
  else
    let bf := s.B.getD f.toNat {}
    let bt := s.B.getD t.toNat {}
    if bf.gimmick.kind = StackGimmickKind.Vine then Option.none
    else if (bf.gimmick.kind = StackGimmickKind.Cloth && s.locks.clothLocked.getD f.toNat false)
         || (bf.gimmick.kind = StackGimmickKind.Bush && s.locks.bushLocked.getD f.toNat false) then
      Option.none
    else if (bt.gimmick.kind = StackGimmickKind.Cloth && s.locks.clothLocked.getD t.toNat false)
         || (bt.gimmick.kind = StackGimmickKind.Bush && s.locks.bushLocked.getD t.toNat false) then
      Option.none
    else if bf.slots.isEmpty then Option.none
    else if bt.capacity ≤ bt.size then Option.none
    else if bf.topColor = 0 then Option.none
    else
      let mv := min (bf.topChunk : Int) (bt.capacity - bt.size)
      if mv ≤ 0 then Option.none else Option.some mv

/-- All generation-rule moves from `s`, excluding the immediate undo of
`last` (the candidate enumeration inside `Generator::scramble`). -/
def scrambleMoveList (s : State) (last : Move) : List Move :=
  (List.range s.B.length).flatMap fun i =>
    (List.range s.B.length).filterMap fun j =>
      if i = j then Option.none
      else if last.«from» = (j : Int) ∧ last.«to» = (i : Int) then Option.none
      else
        match canPourForGeneration s (i : Int) (j : Int) with
        | Option.none => Option.none
        | Option.some amount =>
          Option.some ({ «from» := (i : Int), «to» := (j : Int), amount := amount } : Move)

/-- The step loop of `Generator::scramble`, carrying
`(state, mix count, previous move, recorded steps, rng)`. -/
def scrambleLoop (gc : GenCore) :
    Nat → State × Int × Move × List Move × Nat → State × Int × Move × List Move × Nat
  | 0, acc => acc
  | Nat.succ n, (s, mix, last, steps, rng) =>
    let mv := scrambleMoveList s last
    if mv.isEmpty then (s, mix, last, steps, rng)
    else
      let r := RNG.irange rng 0 ((mv.length : Int) - 1)
      let m := mv.getD r.1.toNat {}
      scrambleLoop gc n (s.apply m, mix + 1, m, steps ++ [m], r.2)

/-- `Generator::scramble`: reverse-move scramble under the generation
pour rule; returns `(state, outMix, outSteps, rng)`. -/
def scramble (gc : GenCore) (s : State) (rng : Nat) : State × Int × List Move × Nat :=
  let rt := RNG.irange rng gc.mixMin gc.mixMax
  let r := scrambleLoop gc rt.1.toNat (s, 0, { «from» := -1, «to» := -1, amount := 0 }, [], rt.2)
  (r.1, r.2.1, r.2.2.2.1, r.2.2.2.2)

/-- `InitialDistribution` (`Generator.hpp`): one bottom → top color
stack per bottle. -/
abbrev InitialDistribution := List (List Color)

/-- The gimmick/hidden overlay shared by the goal-start branches of
`createStartFromInitial`: copy each template bottle's gimmick and
per-slot hidden flags onto the goal state. -/
def applyTemplateOverlay (st : State) (base : State) : State :=
  { st with
    B := (List.range st.B.length).foldl
      (fun B i =>
        if i < base.B.length then
          let src := base.B.getD i {}
          let dst := B.getD i {}
          let lim := min dst.slots.length src.slots.length
          B.set i
            { dst with
              gimmick := src.gimmick
              slots := (List.range dst.slots.length).map fun k =>
                let s := dst.slots.getD k {}
                if k < lim then { s with hidden := (src.slots.getD k {}).hidden } else s }
        else B)
      st.B }

/-- `Generator::createStartFromInitial`. -/
def createStartFromInitial (gc : GenCore) (initial : Option InitialDistribution) (rng : Nat) :
    State × Nat :=
  match gc.base, initial with
  | Option.some base, Option.none =>
    if gc.startMixed then createRandomMixedFromHeights gc base rng
    else
      let st := applyTemplateOverlay (State.goal gc.p) base
      (st.refreshLocks, rng)
  | _, _ =>
    let st0 := State.goal gc.p
    let st1 :=
      match gc.base with
      | Option.some base => applyTemplateOverlay st0 base
      | Option.none => st0
    let st2 :=
      match initial with
      | Option.some init =>
        { st1 with
          B := (List.range st1.B.length).foldl
            (fun B i =>
              if i < init.length then
                let b := B.getD i {}
                B.set i
                  { b with
                    capacity := gc.p.capacity
                    slots := (init.getD i []).map fun c => { c := c, hidden := false } }
              else B)
            st1.B }
      | Option.none => st1
    (st2.refreshLocks, rng)

/-- `Generator::hasAnyMove`. -/
def hasAnyMove (s : State) : Bool :=
  (List.range s.B.length).any fun i =>
    (List.range s.B.length).any fun j =>
      i ≠ j && (s.canPour (i : Int) (j : Int)).isSome

/-- `Generated` (as used by `Generator.cpp`).  The `diff` field stands
for the floating-point outputs (`diffScore`, `diffLabel`, `difficulty`
breakdown) produced by the abstracted scorer. -/
structure Generated (Q : Type) where
  state : State
  scrambleStart : State
  mixCount : Int
  minMoves : Int
  scrambleMoves : List Move
  solutionMoves : List Move
  diff : Q

/-- The retry loop of `Generator::makeOne`.  `ed` abstracts
`estimateDifficulty` + `labelForScore` (floating point); `tks n` is the
wall-clock oracle of the `Solver` constructed on try `n`, and
`loopFuel` bounds each solver's deepening rounds. -/
def makeOneLoop {Q : Type} (ed : State → SolveResult → Q) (tks : Nat → Nat → Bool)
    (loopFuel : Nat) (gc : GenCore) (initial : Option InitialDistribution) :
    Nat → Nat → Nat → Option (Generated Q) × Nat
  | 0, _, rng => (Option.none, rng)
  | Nat.succ n, tryIdx, rng =>
    let cs := createStartFromInitial gc initial rng
    let s0 := cs.1
    let rng := cs.2
    let r :=
      if !gc.startMixed then
        let sc := scramble gc s0 rng
        (sc.1, sc.2.1, sc.2.2.1, s0, sc.2.2.2)
      else
        (s0, gc.p.numColors * gc.p.capacity, ([] : List Move), ({} : State), rng)
    let s := r.1
    let mix := r.2.1
    let scrambleMoves := r.2.2.1
    let scrambleStart := r.2.2.2.1
    let rng := r.2.2.2.2
    if !hasAnyMove s then makeOneLoop ed tks loopFuel gc initial n (tryIdx + 1) rng
    else
      let res := Solver.solve (tks tryIdx) loopFuel s
      if res.solved then
        (Option.some
          { state := s
            scrambleStart := scrambleStart
            mixCount := mix
            minMoves := res.minMoves
            scrambleMoves := scrambleMoves
            solutionMoves := res.solutionMoves
            diff := ed s res },
          rng)
      else makeOneLoop ed tks loopFuel gc initial n (tryIdx + 1) rng

/-- `Generator::makeOne` on the field view, looping up to
`gimmickPlacementTries` attempts. -/
def makeOneCore {Q : Type} (ed : State → SolveResult → Q) (tks : Nat → Nat → Bool)
    (loopFuel : Nat) (gc : GenCore) (initial : Option InitialDistribution) (rng : Nat) :
    Option (Generated Q) × Nat :=
  makeOneLoop ed tks loopFuel gc initial gc.gimmickPlacementTries.toNat 0 rng

/-- `Generator::makeOne`: the object method reads exactly the fields of
`Generator.core` plus the RNG state. -/
def Generator.makeOne {Q : Type} (g : Generator) (ed : State → SolveResult → Q)
    (tks : Nat → Nat → Bool) (loopFuel : Nat) (initial : Option InitialDistribution) :
    Option (Generated Q) × Nat :=
  makeOneCore ed tks loopFuel g.core initial g.rng

/-! ## Specification-level predicates and concrete test states -/

/-- Replay a move list from a state: every move must pass `canPour`
with exactly its recorded amount, and the final state must satisfy
`isSolved`. -/
def replayChecks : State → List Move → Bool
  | S, [] => S.isSolved
  | S, m :: rest =>
    (S.canPour m.«from» m.«to» = Option.some m.amount : Bool) && replayChecks (S.apply m) rest

/-- One legal move: `canPour` accepts the pair and `apply` is invoked
with the amount `canPour` reported (the Solver's usage pattern). -/
def LegalStep (S T : State) : Prop :=
  ∃ f t a, S.canPour f t = Option.some a ∧ T = S.apply { «from» := f, «to» := t, amount := a }

/-- Reachability by a finite sequence of legal moves. -/
inductive Reaches : State → State → Prop
  | refl (S : State) : Reaches S S
  | tail {S T U : State} : Reaches S T → LegalStep T U → Reaches S U

/-- `SolvesIn S n`: some sequence of `n` legal moves ends in a state
satisfying `isSolved`. -/
inductive SolvesIn : State → Nat → Prop
  | solved {S : State} : S.isSolved = true → SolvesIn S 0
  | step {S : State} {f t a : Int} {n : Nat} :
      S.canPour f t = Option.some a →
      SolvesIn (S.apply { «from» := f, «to» := t, amount := a }) n →
      SolvesIn S (n + 1)

/-- The multiset of slot colors of one slot list. -/
def listColors (l : List Slot) : Multiset Color := (l.map Slot.c : List Color)

/-- The multiset of slot colors of one bottle. -/
def bottleColors (b : Bottle) : Multiset Color := listColors b.slots

/-- The multiset of slot colors across all bottles of a state. -/
def slotColors (S : State) : Multiset Color := (S.B.map bottleColors).sum

/-- Two states that agree everywhere except possibly on per-slot hidden
flags. -/
def hiddenEquiv (S1 S2 : State) : Prop :=
  S1.p = S2.p ∧ S1.locks = S2.locks ∧ S1.B.map revealAll = S2.B.map revealAll

/-- Is `b` mono-full of color `t` (the `colorCompleted` registration in
`refreshLocks`)? -/
def monoFullOfColor (b : Bottle) (t : Color) : Bool :=
  b.isMonoFull && b.headColor = t

/-- A wall-clock oracle that never expires (a solver run that stays
within its budget). -/
def tkTrue : Nat → Bool := fun _ => true

/-- Two bottles holding colors `1,1` and `1` (capacity 3): solvable in
one pour, while `heuristic` evaluates to 2. -/
def exHeu : State :=
  State.refreshLocks
    { p := { numColors := 1, numBottles := 2, capacity := 3 }
      B := [ { slots := [{ c := 1 }, { c := 1 }], capacity := 3 }
           , { slots := [{ c := 1 }], capacity := 3 } ] }

/-- A Bush-gimmicked state on which the solver's IDA* returns a
5-move "minimal" solution with exhaustive counting although a 4-move
legal solution exists. -/
def exBush : State :=
  State.refreshLocks
    { p := { numColors := 2, numBottles := 4, capacity := 3 }
      B := [ { slots := [{ c := 1 }], capacity := 3 }
           , { slots := [{ c := 1 }, { c := 1 }, { c := 2 }], capacity := 3 }
           , { slots := [], capacity := 3 }
           , { slots := [{ c := 2 }, { c := 2 }], capacity := 3
               gimmick := { kind := StackGimmickKind.Bush } } ] }

/-- A 4-move solution of `exBush` (shorter than the solver's answer). -/
def exBushShortMoves : List Move :=
  [ { «from» := 0, «to» := 2, amount := 1 }
  , { «from» := 1, «to» := 0, amount := 1 }
  , { «from» := 1, «to» := 2, amount := 2 }
  , { «from» := 0, «to» := 3, amount := 1 } ]

/-- A Cloth bottle that is itself mono-full of its own target color,
with no other bottle completing that color. -/
def exClothSelf : State :=
  { p := { numColors := 1, numBottles := 1, capacity := 3 }
    B := [ { slots := [{ c := 1 }, { c := 1 }, { c := 1 }], capacity := 3
             gimmick := { kind := StackGimmickKind.Cloth, clothTarget := 1 } } ] }

/-- Two bottles of mismatched top colors: `canPour 0 1` fails, yet
`apply` with a positive amount transfers anyway. -/
def exApply : State :=
  State.refreshLocks
    { p := { numColors := 2, numBottles := 2, capacity := 3 }
      B := [ { slots := [{ c := 1 }], capacity := 3 }
           , { slots := [{ c := 2 }], capacity := 3 } ] }

/-- A full bottle next to an empty one, for the CSV map-token shape. -/
def exCsv : State :=
  State.refreshLocks
    { p := { numColors := 1, numBottles := 2, capacity := 3 }
      B := [ { slots := [{ c := 1 }, { c := 1 }, { c := 1 }], capacity := 3 }
           , { slots := [], capacity := 3 } ] }

/-- `exHeu` with one hidden flag set on a buried slot. -/
def exHeuHidden : State :=
  State.refreshLocks
    { p := { numColors := 1, numBottles := 2, capacity := 3 }
      B := [ { slots := [{ c := 1, hidden := true }, { c := 1 }], capacity := 3 }
           , { slots := [{ c := 1 }], capacity := 3 } ] }

/-! ## Theorems -/

set_option maxRecDepth 100000

/-- **C10**: constructing a `Generator` with `seed = 0` is
indistinguishable from constructing it with `seed = 0xBADC0FFEE`:
`makeOne` produces identical outputs for every difficulty scorer,
clock oracle, fuel and initial distribution, because the constructor
maps seed 0 to the constant `0xBADC0FFEE` and `opt.seed` is never read
afterwards. -/
theorem makeOne_seed_zero_alias {Q : Type} (ed : State → SolveResult → Q)
    (tks : Nat → Nat → Bool) (loopFuel : Nat) (p : Params) (opt : GenOptions)
    (initial : Option InitialDistribution) :
    (Generator.make p { opt with seed := 0 }).makeOne ed tks loopFuel initial =
    (Generator.make p { opt with seed := 0xBADC0FFEE }).makeOne ed tks loopFuel initial := rfl

/-- **C2** (failing input): on `exBush` the solver returns
`solved = true`, `minMoves = 5` and `solutionCountExhaustive = true`,
yet the explicit 4-move sequence `exBushShortMoves` is a legal solution
of the same (already revealed) state — the "no shorter legal solution"
guarantee is violated by the code. -/
theorem solver_suboptimal_on_exBush :
    (Solver.solve tkTrue 12 exBush).solved = true ∧
    (Solver.solve tkTrue 12 exBush).minMoves = 5 ∧
    (Solver.solve tkTrue 12 exBush).solutionCountExhaustive = true ∧
    replayChecks (normalizeForSolve exBush) exBushShortMoves = true ∧
    exBushShortMoves.length = 4 := by decide

/-- **C3** (counterexample): a Cloth bottle that is itself the only
mono-full completion of its target is *unlocked* by `refreshLocks`
(`colorCompleted` scans every bottle, including the Cloth bottle
itself), contradicting the claim that it remains locked. -/
theorem cloth_lock_self_counterexample :
    (exClothSelf.refreshLocks).locks.clothLocked.getD 0 false = false ∧
    (exClothSelf.B.getD 0 {}).gimmick.kind = StackGimmickKind.Cloth ∧
    (exClothSelf.B.getD 0 {}).gimmick.clothTarget = 1 ∧
    ((List.range exClothSelf.B.length).all fun j =>
      (j == 0) || !(monoFullOfColor (exClothSelf.B.getD j {}) 1)) = true := by decide

/-- **C4** (counterexample): `canPour 0 1` rejects the pour on
`exApply`, yet `apply` with a positive `amount` mutates the state —
`apply` only consults `canPour` when `amount ≤ 0`. -/
theorem apply_illegal_counterexample :
    exApply.canPour 0 1 = Option.none ∧
    (0 : Int) < ({ «from» := 0, «to» := 1, amount := 1 } : Move).amount ∧
    exApply.apply { «from» := 0, «to» := 1, amount := 1 } ≠ exApply := by decide

/-- **C4** (amended): `apply` is a silent no-op when an index is
negative, and when `amount ≤ 0` and `canPour` rejects the pair; with a
positive amount no legality check is performed. -/
theorem apply_noop_amended (S : State) (m : Move) :
    (m.«from» < 0 ∨ m.«to» < 0 → S.apply m = S) ∧
    (m.amount ≤ 0 → S.canPour m.«from» m.«to» = Option.none → S.apply m = S) := by
  constructor
  · intro h
    unfold State.apply
    rw [if_pos h]
  · intro ha hc
    by_cases h : m.«from» < 0 ∨ m.«to» < 0
    · unfold State.apply
      rw [if_pos h]
    · unfold State.apply
      rw [if_neg h, if_pos ha, hc]

/-- Witness for `apply_noop_amended` at concrete inputs. -/
theorem apply_noop_amended_witness :
    exApply.apply { «from» := -1, «to» := 0, amount := 1 } = exApply ∧
    exApply.apply { «from» := 1, «to» := 0, amount := 0 } = exApply :=
  ⟨(apply_noop_amended exApply { «from» := -1, «to» := 0, amount := 1 }).1 (Or.inl (by decide)),
   (apply_noop_amended exApply { «from» := 1, «to» := 0, amount := 0 }).2 (by decide) (by decide)⟩

/-- **C5** (counterexample): `exHeu` is solvable in one legal pour, but
`heuristic exHeu = 2` — the heuristic is not an admissible lower bound
on the remaining move count. -/
theorem heuristic_inadmissible_counterexample :
    SolvesIn exHeu 1 ∧ ¬ (heuristic exHeu ≤ (1 : Int)) :=
  ⟨SolvesIn.step (f := 0) (t := 1) (a := 2) (by decide) (SolvesIn.solved (by decide)),
   by decide⟩

/-- **C8** (counterexample): a non-empty bottle whose top slot is
hidden still reports the top slot's real color (5, not 0) through
`topColor`. -/
theorem topColor_hidden_counterexample :
    ({ slots := [{ c := 5, hidden := true }], capacity := 3 } : Bottle).isEmpty = false ∧
    ({ slots := [{ c := 5, hidden := true }], capacity := 3 } : Bottle).topHidden = true ∧
    ({ slots := [{ c := 5, hidden := true }], capacity := 3 } : Bottle).topColor = 5 := by decide

/-- **C8** (amended): `topColor` returns 0 only for empty bottles; on a
non-empty bottle it returns the top slot's color even when that slot is
hidden, while `topChunk` returns 0 for a hidden top. -/
theorem topColor_topChunk_hidden (b : Bottle) (s : Slot)
    (hlast : b.slots.getLast? = Option.some s) (hhid : s.hidden = true) :
    b.topColor = s.c ∧ b.topChunk = 0 := by
  constructor
  · simp [Bottle.topColor, hlast]
  · simp [Bottle.topChunk, hlast, hhid]

/-- Witness for `topColor_topChunk_hidden` at a concrete bottle. -/
theorem topColor_topChunk_hidden_witness :
    ({ slots := [{ c := 5, hidden := true }], capacity := 3 } : Bottle).topColor = 5 ∧
    ({ slots := [{ c := 5, hidden := true }], capacity := 3 } : Bottle).topChunk = 0 :=
  topColor_topChunk_hidden { slots := [{ c := 5, hidden := true }], capacity := 3 }
    { c := 5, hidden := true } (by decide) (by decide)

/-- **C9** (counterexample): `encodeMap` writes nothing (not a
zero-padded token) for a completely empty bottle: the map field of
`exCsv` is `"111#"`, whose second token is empty rather than `"000"`. -/
theorem encodeMap_empty_token_counterexample :
    encodeMap exCsv = "111#" ∧
    encodeBottleMap (exCsv.B.getD 1 {}) = "" ∧
    exCsv.p.capacity = 3 := by decide

/-- States that agree up to hidden flags normalize identically. -/
theorem normalize_hiddenEquiv {S1 S2 : State} (h : hiddenEquiv S1 S2) :
    normalizeForSolve S1 = normalizeForSolve S2 := by
  obtain ⟨hp, hl, hb⟩ := h
  cases S1 with
  | mk p1 B1 l1 =>
    cases S2 with
    | mk p2 B2 l2 =>
      simp only at hp hl hb
      subst hp
      subst hl
      show State.refreshLocks ⟨p1, B1.map revealAll, l1⟩ =
        State.refreshLocks ⟨p1, B2.map revealAll, l1⟩
      rw [hb]

/-- **C7**: solving ignores hidden flags — two states equal except for
hidden slot flags produce identical `solved`, `minMoves`,
`solutionMoves`, `distinctSolutions`, `solutionCountExhaustive` and
`solutionCountLimited`, for every wall-clock oracle and fuel. -/
theorem solve_hidden_noninterference (tk : Nat → Bool) (fuel : Nat) (S1 S2 : State)
    (h : hiddenEquiv S1 S2) :
    (Solver.solve tk fuel S1).solved = (Solver.solve tk fuel S2).solved ∧
    (Solver.solve tk fuel S1).minMoves = (Solver.solve tk fuel S2).minMoves ∧
    (Solver.solve tk fuel S1).solutionMoves = (Solver.solve tk fuel S2).solutionMoves ∧
    (Solver.solve tk fuel S1).distinctSolutions = (Solver.solve tk fuel S2).distinctSolutions ∧
    (Solver.solve tk fuel S1).solutionCountExhaustive
      = (Solver.solve tk fuel S2).solutionCountExhaustive ∧
    (Solver.solve tk fuel S1).solutionCountLimited
      = (Solver.solve tk fuel S2).solutionCountLimited := by
  have hs : Solver.solve tk fuel S1 = Solver.solve tk fuel S2 := by
    unfold Solver.solve
    rw [normalize_hiddenEquiv h]
  rw [hs]
  exact ⟨rfl, rfl, rfl, rfl, rfl, rfl⟩

/-- Witness for `solve_hidden_noninterference` on two concrete states
differing in one hidden flag. -/
theorem solve_hidden_noninterference_witness :
    (Solver.solve tkTrue 12 exHeu).solved = (Solver.solve tkTrue 12 exHeuHidden).solved ∧
    (Solver.solve tkTrue 12 exHeu).minMoves = (Solver.solve tkTrue 12 exHeuHidden).minMoves ∧
    (Solver.solve tkTrue 12 exHeu).solutionMoves
      = (Solver.solve tkTrue 12 exHeuHidden).solutionMoves ∧
    (Solver.solve tkTrue 12 exHeu).distinctSolutions
      = (Solver.solve tkTrue 12 exHeuHidden).distinctSolutions ∧
    (Solver.solve tkTrue 12 exHeu).solutionCountExhaustive
      = (Solver.solve tkTrue 12 exHeuHidden).solutionCountExhaustive ∧
    (Solver.solve tkTrue 12 exHeu).solutionCountLimited
      = (Solver.solve tkTrue 12 exHeuHidden).solutionCountLimited :=
  solve_hidden_noninterference tkTrue 12 exHeu exHeuHidden ⟨by decide, by decide, by decide⟩

/-- `getD` through `map` over `range`. -/
theorem getD_map_range {α : Type} (n : Nat) (f : Nat → α) (i : Nat) (d : α) :
    ((List.range n).map f).getD i d = if i < n then f i else d := by
  by_cases h : i < n
  · rw [if_pos h, List.getD_eq_getElem?_getD, List.getElem?_map, List.getElem?_range h]
    rfl
  · rw [if_neg h, List.getD_eq_default]
    simpa using h

/-- `List.any` is false iff the predicate is false at every position. -/
theorem any_eq_false_iff_getD (p : Bottle → Bool) (l : List Bottle) :
    l.any p = false ↔ ∀ j, j < l.length → p (l.getD j {}) = false := by
  rw [List.any_eq_false]
  constructor
  · intro h j hj
    have hm : l.getD j {} ∈ l := by
      rw [List.getD_eq_getElem l {} hj]
      exact List.getElem_mem hj
    simpa using h _ hm
  · intro h b hb
    obtain ⟨j, hj, rfl⟩ := List.mem_iff_getElem.mp hb
    have := h j hj
    rw [List.getD_eq_getElem l {} hj] at this
    simp [this]

/-- **C3** (amended): after `refreshLocks`, `clothLocked[i]` holds iff
bottle `i` is a Cloth bottle with target color in 1..20 and *no bottle
at all* (the Cloth bottle itself included) is mono-full of the target. -/
theorem cloth_lock_rule_amended (S : State) (i : Nat) :
    (S.refreshLocks).locks.clothLocked.getD i false = true ↔
    (i < S.B.length ∧
     (S.B.getD i {}).gimmick.kind = StackGimmickKind.Cloth ∧
     1 ≤ (S.B.getD i {}).gimmick.clothTarget ∧
     (S.B.getD i {}).gimmick.clothTarget ≤ 20 ∧
     ∀ j, j < S.B.length →
       monoFullOfColor (S.B.getD j {}) (S.B.getD i {}).gimmick.clothTarget = false) := by
  have hL : (S.refreshLocks).locks.clothLocked.getD i false =
      (if i < S.B.length then
        (if (S.B.getD i {}).gimmick.kind = StackGimmickKind.Cloth then
          if 1 ≤ (S.B.getD i {}).gimmick.clothTarget ∧ (S.B.getD i {}).gimmick.clothTarget ≤ 20
          then !(S.B.any fun b =>
            b.isMonoFull && b.headColor = (S.B.getD i {}).gimmick.clothTarget)
          else false
        else false)
      else false) := by
    unfold State.refreshLocks
    exact getD_map_range _ _ _ _
  rw [hL]
  by_cases hi : i < S.B.length
  · rw [if_pos hi]
    by_cases hk : (S.B.getD i {}).gimmick.kind = StackGimmickKind.Cloth
    · rw [if_pos hk]
      by_cases hr : 1 ≤ (S.B.getD i {}).gimmick.clothTarget ∧
          (S.B.getD i {}).gimmick.clothTarget ≤ 20
      · rw [if_pos hr]
        constructor
        · intro hb
          have hany : (S.B.any fun b =>
              b.isMonoFull && b.headColor = (S.B.getD i {}).gimmick.clothTarget) = false := by
            cases hx : S.B.any fun b =>
              b.isMonoFull && b.headColor = (S.B.getD i {}).gimmick.clothTarget
            · rfl
            · rw [hx] at hb
              exact absurd hb (by decide)
          refine ⟨hi, hk, hr.1, hr.2, ?_⟩
          intro j hj
          have := (any_eq_false_iff_getD _ _).mp hany j hj
          simpa [monoFullOfColor] using this
        · rintro ⟨-, -, -, -, hall⟩
          have hany : (S.B.any fun b =>
              b.isMonoFull && b.headColor = (S.B.getD i {}).gimmick.clothTarget) = false := by
            refine (any_eq_false_iff_getD _ _).mpr ?_
            intro j hj
            simpa [monoFullOfColor] using hall j hj
          rw [hany]
          rfl
      · rw [if_neg hr]
        constructor
        · intro h
          exact absurd h (by decide)
        · rintro ⟨-, -, h1, h2, -⟩
          exact absurd ⟨h1, h2⟩ hr
    · rw [if_neg hk]
      constructor
      · intro h
        exact absurd h (by decide)
      · rintro ⟨-, hkk, -⟩
        exact absurd hkk hk
  · rw [if_neg hi]
    constructor
    · intro h
      exact absurd h (by decide)
    · rintro ⟨hii, -⟩
      exact absurd hii hi

/-- The character data produced by `String.intercalate`'s worker. -/
theorem intercalate_go_data (l : List String) (acc : String) :
    (String.intercalate.go acc "#" l).data
      = acc.data ++ (l.map fun s => '#' :: s.data).flatten := by
  induction l generalizing acc with
  | nil => simp [String.intercalate.go]
  | cons a as ih =>
    rw [show String.intercalate.go acc "#" (a :: as)
        = String.intercalate.go (acc ++ "#" ++ a) "#" as from rfl]
    rw [ih]
    simp [String.data_append]

/-- The `'#'`-joining loop coincides with `String.intercalate "#"`. -/
theorem joinTokens_eq_intercalate : ∀ l : List String, joinTokens l = String.intercalate "#" l
  | [] => rfl
  | [a] => by
    show a = String.intercalate "#" [a]
    apply String.ext
    rw [show String.intercalate "#" [a] = String.intercalate.go a "#" [] from rfl,
       intercalate_go_data]
    simp
  | a :: b :: t => by
    show a ++ "#" ++ joinTokens (b :: t) = String.intercalate "#" (a :: b :: t)
    rw [joinTokens_eq_intercalate (b :: t)]
    apply String.ext
    rw [show String.intercalate "#" (a :: b :: t) = String.intercalate.go a "#" (b :: t) from rfl,
       intercalate_go_data]
    rw [show String.intercalate "#" (b :: t) = String.intercalate.go b "#" t from rfl]
    rw [String.data_append, String.data_append, intercalate_go_data]
    simp

/-- Length of a joined string is the sum of the lengths. -/
theorem join_length (l : List String) : (String.join l).length = (l.map String.length).sum := by
  rw [String.join_eq]
  show ((l.map String.data).flatten).length = _
  rw [List.length_flatten]
  simp only [List.map_map]
  exact congrArg List.sum (List.map_congr_left fun s _ => rfl)

/-- Characters of a joined string come from its pieces. -/
theorem mem_join_data (l : List String) (ch : Char) (h : ch ∈ (String.join l).data) :
    ∃ s ∈ l, ch ∈ s.data := by
  rw [String.join_eq] at h
  have := List.mem_flatten.mp h
  obtain ⟨xs, hxs, hch⟩ := this
  obtain ⟨s, hs, rfl⟩ := List.mem_map.mp hxs
  exact ⟨s, hs, hch⟩

/-- Decimal rendering of a single-digit `Nat` is one digit character. -/
theorem toString_digit (c : Nat) (h : c ≤ 9) :
    (toString c).length = 1 ∧ ∀ ch ∈ (toString c).data, ch.isDigit = true := by
  interval_cases c <;> exact ⟨rfl, by decide⟩

/-- **C9** (amended): the map field joins the per-bottle tokens with
`'#'`; a completely empty bottle contributes an *empty* token, while a
non-empty bottle whose colors are single-digit contributes exactly
`capacity` digit characters (bottom → top, `'0'`-padded above the
fill). -/
theorem encodeMap_shape_amended (S : State) :
    encodeMap S = String.intercalate "#" (S.B.map encodeBottleMap) ∧
    ∀ b ∈ S.B,
      (b.slots.isEmpty = true → encodeBottleMap b = "") ∧
      (b.slots.isEmpty = false → (∀ s ∈ b.slots, s.c ≤ 9) →
        (encodeBottleMap b).length = b.capacity.toNat ∧
        ∀ ch ∈ (encodeBottleMap b).data, ch.isDigit = true) := by
  constructor
  · exact joinTokens_eq_intercalate _
  · intro b _
    constructor
    · intro he
      unfold encodeBottleMap
      rw [if_pos he]
    · intro hne hc
      have hcell : ∀ k ∈ List.range b.capacity.toNat,
          ((fun k => if k < b.slots.length then toString (b.slots.getD k {}).c else "0") k).length = 1 ∧
          ∀ ch ∈ ((fun k => if k < b.slots.length then toString (b.slots.getD k {}).c else "0") k).data,
            ch.isDigit = true := by
        intro k _
        by_cases hk : k < b.slots.length
        · simp only [if_pos hk]
          refine toString_digit _ (hc _ ?_)
          rw [List.getD_eq_getElem b.slots {} hk]
          exact List.getElem_mem hk
        · simp only [if_neg hk]
          exact ⟨rfl, by decide⟩
      unfold encodeBottleMap
      rw [if_neg (by simp [hne])]
      constructor
      · rw [join_length, List.map_map]
        have : ((List.range b.capacity.toNat).map
            (String.length ∘ fun k => if k < b.slots.length then toString (b.slots.getD k {}).c else "0"))
            = (List.range b.capacity.toNat).map fun _ => 1 := by
          apply List.map_congr_left
          intro k hk
          exact (hcell k hk).1
        rw [this]
        simp [List.map_const']
      · intro ch hch
        obtain ⟨s, hs, hchs⟩ := mem_join_data _ ch hch
        obtain ⟨k, hk, rfl⟩ := List.mem_map.mp hs
        exact (hcell k hk).2 ch hchs

/-- Colors of a concatenation. -/
theorem listColors_append (l1 l2 : List Slot) :
    listColors (l1 ++ l2) = listColors l1 + listColors l2 := by
  simp [listColors]

/-- Removing a known last slot removes exactly its color. -/
theorem listColors_dropLast {fs : List Slot} {s : Slot} (h : fs.getLast? = Option.some s) :
    listColors fs = listColors fs.dropLast + {s.c} := by
  have hne : fs ≠ [] := by
    rintro rfl
    simp at h
  have hgl : fs.getLast hne = s := by
    have h2 := List.getLast?_eq_getLast fs hne
    rw [h2] at h
    exact (Option.some.injEq _ _).mp h
  conv_lhs => rw [← List.dropLast_append_getLast hne]
  rw [listColors_append, hgl]
  simp [listColors]

/-- The pour loop preserves the combined color multiset of the two
bottles (unconditionally, the empty-source guard included). -/
theorem popPush_colors (n : Nat) : ∀ fs ts : List Slot,
    listColors (popPush n fs ts).1 + listColors (popPush n fs ts).2
      = listColors fs + listColors ts := by
  induction n with
  | zero => intro fs ts; rfl
  | succ n ih =>
    intro fs ts
    cases h : fs.getLast? with
    | none => simp [popPush, h]
    | some s =>
      simp only [popPush, h]
      rw [ih, listColors_append, listColors_dropLast h]
      simp [listColors]
      abel

/-- The reveal rule does not change slot colors. -/
theorem revealTop_colors (l : List Slot) : listColors (revealTop l) = listColors l := by
  unfold revealTop
  cases h : l.getLast? with
  | none => rfl
  | some s =>
    rw [listColors_append, listColors_dropLast h]
    simp [listColors]

/-- Counting through a list-sum of multisets. -/
theorem count_listSum (c : Color) (l : List (Multiset Color)) :
    l.sum.count c = (l.map (Multiset.count c)).sum := by
  induction l with
  | nil => rfl
  | cons m t ih => simp [ih]

/-- Replacing one bottle exchanges exactly its colors in the state sum. -/
theorem msB_set (B : List Bottle) (i : Nat) (x : Bottle) (h : i < B.length) :
    ((B.set i x).map bottleColors).sum + bottleColors (B.getD i {})
      = (B.map bottleColors).sum + bottleColors x := by
  induction B generalizing i with
  | nil => simp at h
  | cons b t ih =>
    cases i with
    | zero =>
      simp only [List.set, List.map_cons, List.sum_cons, List.getD_cons_zero]
      abel
    | succ n =>
      have hn : n < t.length := by simpa using h
      simp only [List.set, List.map_cons, List.sum_cons, List.getD_cons_succ]
      rw [add_assoc, ih n hn, ← add_assoc]

/-- Facts extracted from a successful `canPour`. -/
theorem canPour_facts {S : State} {f t a : Int} (h : S.canPour f t = Option.some a) :
    f ≠ t ∧ 0 ≤ f ∧ 0 ≤ t ∧ f.toNat < S.B.length ∧ t.toNat < S.B.length ∧ f.toNat ≠ t.toNat := by
  unfold State.canPour at h
  by_cases hc : f = t ∨ f < 0 ∨ t < 0 ∨ (S.B.length : Int) ≤ f ∨ (S.B.length : Int) ≤ t
  · rw [if_pos hc] at h
    exact absurd h (by simp)
  · push_neg at hc
    obtain ⟨h1, h2, h3, h4, h5⟩ := hc
    refine ⟨h1, h2, h3, ?_, ?_, ?_⟩ <;> omega

/-- `slotColors` only reads the bottle list. -/
theorem slotColors_refreshLocks (X : State) : slotColors X.refreshLocks = slotColors X := rfl

/-- `slotColors` unfolded. -/
theorem slotColors_def (X : State) : slotColors X = (X.B.map bottleColors).sum := rfl

/-- `bottleColors` of a slot-replacement. -/
theorem bottleColors_withSlots (b : Bottle) (l : List Slot) :
    bottleColors { b with slots := l } = listColors l := rfl

/-- Replacing two distinct bottles whose combined colors are unchanged
preserves the state color sum. -/
theorem slotColors_setset (B : List Bottle) (i j : Nat) (x y : Bottle)
    (hi : i < B.length) (hj : j < B.length) (hne : i ≠ j)
    (hxy : bottleColors x + bottleColors y
      = bottleColors (B.getD i {}) + bottleColors (B.getD j {})) :
    (((B.set i x).set j y).map bottleColors).sum = (B.map bottleColors).sum := by
  have hj2 : j < (B.set i x).length := by simpa using hj
  have e1 := msB_set (B.set i x) j y hj2
  have hgd : (B.set i x).getD j {} = B.getD j {} := by
    rw [List.getD_eq_getElem _ _ hj2, List.getD_eq_getElem _ _ hj]
    exact List.getElem_set_ne (by omega) _
  rw [hgd] at e1
  have e2 := msB_set B i x hi
  have key : (((B.set i x).set j y).map bottleColors).sum
      + (bottleColors (B.getD j {}) + bottleColors (B.getD i {}))
      = (B.map bottleColors).sum + (bottleColors (B.getD j {}) + bottleColors (B.getD i {})) := by
    calc (((B.set i x).set j y).map bottleColors).sum
        + (bottleColors (B.getD j {}) + bottleColors (B.getD i {}))
        = ((((B.set i x).set j y).map bottleColors).sum + bottleColors (B.getD j {}))
          + bottleColors (B.getD i {}) := by rw [add_assoc]
      _ = (((B.set i x).map bottleColors).sum + bottleColors y) + bottleColors (B.getD i {}) := by
          rw [e1]
      _ = (((B.set i x).map bottleColors).sum + bottleColors (B.getD i {})) + bottleColors y := by
          abel
      _ = ((B.map bottleColors).sum + bottleColors x) + bottleColors y := by rw [e2]
      _ = (B.map bottleColors).sum + (bottleColors x + bottleColors y) := by rw [add_assoc]
      _ = (B.map bottleColors).sum + (bottleColors (B.getD i {}) + bottleColors (B.getD j {})) := by
          rw [hxy]
      _ = (B.map bottleColors).sum + (bottleColors (B.getD j {}) + bottleColors (B.getD i {})) := by
          abel
  exact add_right_cancel key

/-- The explicit form of `apply` on a move validated by `canPour`. -/
theorem apply_of_canPour {S : State} {f t a : Int} (hc : S.canPour f t = Option.some a) :
    S.apply { «from» := f, «to» := t, amount := a } =
      State.refreshLocks
        { S with B :=
            ((S.B.set f.toNat
              ({ (S.B.getD f.toNat ({} : Bottle)) with
                 slots := revealTop (popPush a.toNat (S.B.getD f.toNat ({} : Bottle)).slots
                   (S.B.getD t.toNat ({} : Bottle)).slots).1 } : Bottle)).set t.toNat
              ({ (S.B.getD t.toNat ({} : Bottle)) with
                 slots := revealTop (popPush a.toNat (S.B.getD f.toNat ({} : Bottle)).slots
                   (S.B.getD t.toNat ({} : Bottle)).slots).2 } : Bottle)) } := by
  obtain ⟨-, hf0, ht0, -, -, -⟩ := canPour_facts hc
  have hneg : ¬(({ «from» := f, «to» := t, amount := a } : Move).«from» < 0 ∨
      ({ «from» := f, «to» := t, amount := a } : Move).«to» < 0) := by
    simp only
    omega
  have hamt : (if ({ «from» := f, «to» := t, amount := a } : Move).amount ≤ 0
      then S.canPour f t else Option.some a) = Option.some a := by
    by_cases hA : a ≤ 0
    · simpa [hA] using hc
    · simp [hA]
  simp only [State.apply, hneg, if_false, hamt]

/-- One legal move preserves the color multiset. -/
theorem legalStep_slotColors {S T : State} (h : LegalStep S T) : slotColors T = slotColors S := by
  obtain ⟨f, t, a, hc, rfl⟩ := h
  obtain ⟨-, -, -, hfl, htl, hnn⟩ := canPour_facts hc
  rw [apply_of_canPour hc, slotColors_refreshLocks, slotColors_def, slotColors_def]
  apply slotColors_setset _ _ _ _ _ hfl htl hnn
  rw [bottleColors_withSlots, bottleColors_withSlots, revealTop_colors, revealTop_colors,
     popPush_colors]
  rfl

/-- Reachability preserves the color multiset. -/
theorem reaches_slotColors {S T : State} (h : Reaches S T) : slotColors T = slotColors S := by
  induction h with
  | refl => rfl
  | tail _ hstep ih => rw [legalStep_slotColors hstep, ih]

/-- `getD` is unaffected by `set` at a different index. -/
theorem getD_set_ne (B : List Bottle) (k j : Nat) (x : Bottle) (h : k ≠ j) :
    (B.set k x).getD j ({} : Bottle) = B.getD j ({} : Bottle) := by
  by_cases hj : j < B.length
  · rw [List.getD_eq_getElem _ _ (by simpa using hj), List.getD_eq_getElem _ _ hj]
    exact List.getElem_set_ne (by omega) _
  · rw [List.getD_eq_default _ _ (by simpa using hj), List.getD_eq_default _ _ (by omega)]

/-- A fold of index-wise `set`s keeps the list length. -/
theorem foldlSet_length (f : Nat → Bottle) : ∀ (ks : List Nat) (B0 : List Bottle),
    (ks.foldl (fun B k => B.set k (f k)) B0).length = B0.length := by
  intro ks
  induction ks with
  | nil => intro B0; rfl
  | cons k t ih =>
    intro B0
    rw [List.foldl_cons, ih, List.length_set]

/-- A fold of index-wise `set`s leaves untouched indices unchanged. -/
theorem foldlSet_getD (f : Nat → Bottle) : ∀ (ks : List Nat) (B0 : List Bottle) (j : Nat),
    (∀ k ∈ ks, k ≠ j) →
    (ks.foldl (fun B k => B.set k (f k)) B0).getD j ({} : Bottle) = B0.getD j ({} : Bottle) := by
  intro ks
  induction ks with
  | nil => intro B0 j _; rfl
  | cons k t ih =>
    intro B0 j hk
    rw [List.foldl_cons, ih _ _ (fun x hx => hk x (List.mem_cons_of_mem _ hx)),
      getD_set_ne _ _ _ _ (hk k (List.mem_cons_self _ _))]

/-- A colorless bottle list sums to the empty multiset. -/
theorem sum_colors_zero : ∀ B0 : List Bottle,
    (∀ j, j < B0.length → bottleColors (B0.getD j ({} : Bottle)) = 0) →
    (B0.map bottleColors).sum = 0 := by
  intro B0
  induction B0 with
  | nil => intro _; rfl
  | cons b t ih =>
    intro h
    have hb : bottleColors b = 0 := by simpa using h 0 (by simp)
    have ht : (t.map bottleColors).sum = 0 := by
      refine ih ?_
      intro j hj
      simpa using h (j + 1) (by simpa using hj)
    simp [hb, ht]

/-- The color multiset accumulated by a fold of index-wise `set`s over
`range n` on an initially colorless list. -/
theorem foldlSet_sum (f : Nat → Bottle) : ∀ (n : Nat) (B0 : List Bottle), n ≤ B0.length →
    (∀ j, j < B0.length → bottleColors (B0.getD j ({} : Bottle)) = 0) →
    (((List.range n).foldl (fun B k => B.set k (f k)) B0).map bottleColors).sum
      = ((List.range n).map (fun k => bottleColors (f k))).sum := by
  intro n
  induction n with
  | zero =>
    intro B0 _ h0
    simpa using sum_colors_zero B0 h0
  | succ n ih =>
    intro B0 hn h0
    rw [List.range_succ, List.foldl_append, List.foldl_cons, List.foldl_nil]
    have hlen : ((List.range n).foldl (fun B k => B.set k (f k)) B0).length = B0.length :=
      foldlSet_length f _ B0
    have hmem : n < ((List.range n).foldl (fun B k => B.set k (f k)) B0).length := by
      rw [hlen]; omega
    have e := msB_set _ n (f n) hmem
    have huntouched : ((List.range n).foldl (fun B k => B.set k (f k)) B0).getD n ({} : Bottle)
        = B0.getD n ({} : Bottle) :=
      foldlSet_getD f _ B0 n (fun k hk => by have := List.mem_range.mp hk; omega)
    rw [huntouched, h0 n (by omega), add_zero] at e
    rw [e, ih B0 (by omega) h0, List.map_append, List.sum_append]
    simp

/-- Sum of a single-hit indicator over `range`. -/
theorem sum_indicator_range (c v : Nat) : ∀ n : Nat,
    ((List.range n).map (fun k => if c = k + 1 then v else 0)).sum
      = if 1 ≤ c ∧ c ≤ n then v else 0 := by
  intro n
  induction n with
  | zero =>
    simp only [List.range_zero, List.map_nil, List.sum_nil]
    rw [if_neg (by omega)]
  | succ n ih =>
    rw [List.range_succ, List.map_append, List.sum_append, ih]
    simp only [List.map_cons, List.map_nil, List.sum_cons, List.sum_nil, add_zero]
    split_ifs <;> omega

/-- The goal state holds exactly `capacity` slots of each color
`1..numColors` (for parameters within the source's documented ranges —
`numColors > numBottles` is out-of-bounds UB in `State::goal`, and
colors are stored as `uint8`). -/
theorem goal_count (P : Params) (hcb : P.numColors ≤ P.numBottles) (h255 : P.numColors ≤ 255)
    (c : Color) :
    (slotColors (State.goal P)).count c
      = if 1 ≤ c ∧ (c : Int) ≤ P.numColors then P.capacity.toNat else 0 := by
  have h0 : ∀ j, j < (List.replicate P.numBottles.toNat ({ capacity := P.capacity } : Bottle)).length →
      bottleColors ((List.replicate P.numBottles.toNat
        ({ capacity := P.capacity } : Bottle)).getD j ({} : Bottle)) = 0 := by
    intro j hj
    rw [List.getD_eq_getElem _ _ hj, List.getElem_replicate]
    rfl
  have hle : P.numColors.toNat ≤
      (List.replicate P.numBottles.toNat ({ capacity := P.capacity } : Bottle)).length := by
    rw [List.length_replicate]
    omega
  have hsum : slotColors (State.goal P)
      = ((List.range P.numColors.toNat).map (fun k =>
          bottleColors ({ capacity := P.capacity, slots := List.replicate P.capacity.toNat { c := (k + 1) % 256, hidden := false } } : Bottle))).sum :=
    foldlSet_sum (fun k => ({ capacity := P.capacity, slots := List.replicate P.capacity.toNat { c := (k + 1) % 256, hidden := false } } : Bottle))
      P.numColors.toNat _ hle h0
  rw [hsum, count_listSum, List.map_map]
  have hmod : ∀ k ∈ List.range P.numColors.toNat,
      (Multiset.count c ∘ fun k =>
        bottleColors ({ capacity := P.capacity, slots := List.replicate P.capacity.toNat { c := (k + 1) % 256, hidden := false } } : Bottle)) k
        = (fun k => if c = k + 1 then P.capacity.toNat else 0) k := by
    intro k hk
    have hk2 : k < P.numColors.toNat := List.mem_range.mp hk
    have hm : (k + 1) % 256 = k + 1 := Nat.mod_eq_of_lt (by omega)
    show Multiset.count c (bottleColors _) = _
    have hb : bottleColors ({ capacity := P.capacity, slots := List.replicate P.capacity.toNat { c := (k + 1) % 256, hidden := false } } : Bottle)
        = Multiset.replicate P.capacity.toNat (((k + 1) % 256 : Nat) : Color) := by
      show listColors _ = _
      simp [listColors, List.map_replicate, Multiset.coe_replicate]
    rw [hb, hm, Multiset.count_replicate]
    show (if k + 1 = c then P.capacity.toNat else 0) = (if c = k + 1 then P.capacity.toNat else 0)
    by_cases hc : c = k + 1
    · rw [if_pos hc.symm, if_pos hc]
    · rw [if_neg (fun h => hc h.symm), if_neg hc]
  rw [List.map_congr_left hmod, sum_indicator_range]
  have hiffAll : ∀ x : Nat, (1 ≤ x ∧ x ≤ P.numColors.toNat) ↔ (1 ≤ x ∧ (x : Int) ≤ P.numColors) := by
    intro x; omega
  have hiff := hiffAll c
  by_cases h : 1 ≤ c ∧ (c : Int) ≤ P.numColors
  · rw [if_pos (hiff.mpr h), if_pos h]
  · rw [if_neg (fun hh => h (hiff.mp hh)), if_neg h]

/-- **C6**: every state reachable from `goal(P)` by legal moves has the
same color multiset as `goal(P)`, which consists of exactly `capacity`
copies of each color `1..numColors`.  (`numColors ≤ numBottles` keeps
`State::goal` inside its array bounds, and `numColors ≤ 255` keeps the
`uint8` color cast faithful; both hold for the documented parameter
ranges.) -/
theorem color_conservation (P : Params) (S : State)
    (hreach : Reaches (State.goal P) S)
    (hcb : P.numColors ≤ P.numBottles) (h255 : P.numColors ≤ 255) :
    slotColors S = slotColors (State.goal P) ∧
    ∀ c : Color, (slotColors (State.goal P)).count c
      = if 1 ≤ c ∧ (c : Int) ≤ P.numColors then P.capacity.toNat else 0 :=
  ⟨reaches_slotColors hreach, fun c => goal_count P hcb h255 c⟩

/-- Witness for `color_conservation` at concrete parameters. -/
theorem color_conservation_witness :
    slotColors (State.goal { numColors := 2, numBottles := 4, capacity := 3 })
      = slotColors (State.goal { numColors := 2, numBottles := 4, capacity := 3 }) ∧
    (slotColors (State.goal { numColors := 2, numBottles := 4, capacity := 3 })).count 1 = 3 := by
  refine ⟨(color_conservation _ _ (Reaches.refl _) (by decide) (by decide)).1, ?_⟩
  have h := (color_conservation { numColors := 2, numBottles := 4, capacity := 3 } _
    (Reaches.refl _) (by decide) (by decide)).2 1
  simpa using h

/-- Witness for `encodeMap_shape_amended` at `exCsv`. -/
theorem encodeMap_shape_amended_witness :
    encodeMap exCsv = String.intercalate "#" (exCsv.B.map encodeBottleMap) ∧
    encodeBottleMap (exCsv.B.getD 1 {}) = "" ∧
    (encodeBottleMap (exCsv.B.getD 0 {})).length = 3 := by
  refine ⟨(encodeMap_shape_amended exCsv).1, ?_, ?_⟩
  · exact ((encodeMap_shape_amended exCsv).2 (exCsv.B.getD 1 {}) (by decide)).1 (by decide)
  · exact (((encodeMap_shape_amended exCsv).2 (exCsv.B.getD 0 {}) (by decide)).2
      (by decide) (by decide)).1

/-- `groupsAux` only depends on the slot colors. -/
theorem groupsAux_congr : ∀ (l1 l2 : List Slot) (prev : Color),
    l1.map Slot.c = l2.map Slot.c → groupsAux prev l1 = groupsAux prev l2 := by
  intro l1
  induction l1 with
  | nil =>
    intro l2 prev h
    cases l2 with
    | nil => rfl
    | cons b t2 => simp at h
  | cons a t ih =>
    intro l2 prev h
    cases l2 with
    | nil => simp at h
    | cons b t2 =>
      simp only [List.map_cons, List.cons.injEq] at h
      obtain ⟨hc, ht⟩ := h
      simp only [groupsAux, hc]
      by_cases h1 : b.c ≠ prev
      · rw [if_pos h1, if_pos h1]
        by_cases h2 : b.c ≠ 0
        · rw [if_pos h2, if_pos h2, ih t2 b.c ht]
        · rw [if_neg h2, if_neg h2, ih t2 b.c ht]
      · rw [if_neg h1, if_neg h1, ih t2 prev ht]

/-- A list whose colors all equal the running color adds no groups. -/
theorem groupsAux_const_zero : ∀ (l : List Slot) (prev : Color),
    (∀ s ∈ l, s.c = prev) → groupsAux prev l = 0 := by
  intro l
  induction l with
  | nil => intro prev _; rfl
  | cons a t ih =>
    intro prev h
    have ha : a.c = prev := h a (by simp)
    have hstep : groupsAux prev (a :: t) = groupsAux prev t := by
      simp only [groupsAux, ha]
      rw [if_neg (by simp)]
    rw [hstep]
    exact ih prev (fun s hs => h s (by simp [hs]))

/-- A constant-color list contributes at most one group. -/
theorem groupsAux_const_le_one (l : List Slot) (tcol prev : Color)
    (h : ∀ s ∈ l, s.c = tcol) : groupsAux prev l ≤ 1 := by
  cases l with
  | nil => simp [groupsAux]
  | cons a t =>
    have ha : a.c = tcol := h a (by simp)
    have h0 : groupsAux tcol t = 0 :=
      groupsAux_const_zero t tcol (fun s hs => h s (by simp [hs]))
    simp only [groupsAux, ha]
    by_cases h1 : tcol ≠ prev
    · rw [if_pos h1]
      by_cases h2 : tcol ≠ 0
      · rw [if_pos h2, h0]
      · rw [if_neg h2, h0]
        omega
    · rw [if_neg h1]
      have hp : tcol = prev := not_not.mp h1
      rw [hp] at h0
      omega

/-- A non-empty constant non-zero-color list has exactly one group. -/
theorem groups_const_one (l : List Slot) (tcol : Color) (h0 : tcol ≠ 0)
    (hne : l ≠ []) (h : ∀ s ∈ l, s.c = tcol) : groupsAux 0 l = 1 := by
  cases l with
  | nil => exact absurd rfl hne
  | cons a t =>
    have ha : a.c = tcol := h a (by simp)
    have hz : groupsAux tcol t = 0 :=
      groupsAux_const_zero t tcol (fun s hs => h s (by simp [hs]))
    simp only [groupsAux, ha]
    rw [if_pos h0, if_pos h0, hz]

/-- Appending a constant-color suffix never decreases the group count and
increases it by at most one. -/
theorem groupsAux_append_const (suf : List Slot) (tcol : Color)
    (hc : ∀ s ∈ suf, s.c = tcol) :
    ∀ (pre : List Slot) (prev : Color),
      groupsAux prev pre ≤ groupsAux prev (pre ++ suf) ∧
      groupsAux prev (pre ++ suf) ≤ groupsAux prev pre + 1 := by
  intro pre
  induction pre with
  | nil =>
    intro prev
    constructor
    · exact Nat.zero_le _
    · have := groupsAux_const_le_one suf tcol prev hc
      simpa using this
  | cons a t ih =>
    intro prev
    simp only [List.cons_append, groupsAux, List.append_eq]
    by_cases h1 : a.c ≠ prev
    · rw [if_pos h1, if_pos h1]
      by_cases h2 : a.c ≠ 0
      · rw [if_pos h2, if_pos h2]
        have := ih a.c
        omega
      · rw [if_neg h2, if_neg h2]
        exact ih a.c
    · rw [if_neg h1, if_neg h1]
      exact ih prev

/-- `revealTop` keeps the color list unchanged. -/
theorem revealTop_mapc (l : List Slot) : (revealTop l).map Slot.c = l.map Slot.c := by
  unfold revealTop
  cases h : l.getLast? with
  | none => rfl
  | some s =>
    have hne : l ≠ [] := by rintro rfl; simp at h
    have hgl : l.getLast hne = s := by
      have h2 := List.getLast?_eq_getLast l hne
      rw [h2] at h
      exact (Option.some.injEq _ _).mp h
    conv_rhs => rw [← List.dropLast_append_getLast hne]
    rw [List.map_append, List.map_append, hgl]
    rfl

/-- `popPush` over an exact-length suffix: the source keeps its prefix and
the destination gains slots whose colors are drawn from the suffix. -/
theorem popPush_split : ∀ (suf pre ts : List Slot),
    (popPush suf.length (pre ++ suf) ts).1 = pre ∧
    ∃ app : List Slot, (popPush suf.length (pre ++ suf) ts).2 = ts ++ app ∧
      app.length = suf.length ∧ ∀ s ∈ app, ∃ s2 ∈ suf, s.c = s2.c := by
  intro suf
  induction suf using List.reverseRecOn with
  | nil =>
    intro pre ts
    refine ⟨by simp [popPush], [], by simp [popPush], rfl, by simp⟩
  | append_singleton l a ih =>
    intro pre ts
    have hlen : (l ++ [a]).length = l.length + 1 := by simp
    have hassoc : pre ++ (l ++ [a]) = (pre ++ l) ++ [a] := by simp
    have hlast : (pre ++ (l ++ [a])).getLast? = Option.some a := by
      rw [hassoc]
      exact List.getLast?_concat _
    have hdrop : (pre ++ (l ++ [a])).dropLast = pre ++ l := by
      rw [hassoc]
      exact List.dropLast_concat
    have hstep : popPush ((l ++ [a]).length) (pre ++ (l ++ [a])) ts
        = popPush l.length (pre ++ l) (ts ++ [{ c := a.c, hidden := false }]) := by
      rw [hlen]
      simp only [popPush, hlast, hdrop]
    obtain ⟨h1, app, h2, h3, h4⟩ := ih pre (ts ++ [{ c := a.c, hidden := false }])
    refine ⟨by rw [hstep]; exact h1, { c := a.c, hidden := false } :: app, ?_, ?_, ?_⟩
    · rw [hstep, h2, List.append_assoc]
      rfl
    · simp [h3]
    · intro s hs
      rcases List.mem_cons.mp hs with h5 | h5
      · exact ⟨a, by simp, by rw [h5]⟩
      · obtain ⟨s2, hs2, he2⟩ := h4 s h5
        exact ⟨s2, by simp [hs2], he2⟩

/-- The first `n ≤ chunkAux` slots of the walked list all carry the chunk
color. -/
theorem chunkAux_take : ∀ (l : List Slot) (t : Color) (n : Nat), n ≤ chunkAux t l →
    n ≤ l.length ∧ ∀ s ∈ l.take n, s.c = t := by
  intro l
  induction l with
  | nil =>
    intro t n h
    have hz : n = 0 := by simpa [chunkAux] using h
    subst hz
    simp
  | cons a r ih =>
    intro t n h
    simp only [chunkAux] at h
    by_cases hh : a.hidden
    · rw [if_pos hh] at h
      have hz : n = 0 := by omega
      subst hz
      simp
    · rw [if_neg hh] at h
      by_cases hc : a.c = t
      · rw [if_pos hc] at h
        cases n with
        | zero => simp
        | succ m =>
          have hm : m ≤ chunkAux t r := by omega
          obtain ⟨h1, h2⟩ := ih t m hm
          refine ⟨by simpa using h1, ?_⟩
          intro s hs
          rw [List.take_succ_cons] at hs
          rcases List.mem_cons.mp hs with h3 | h3
          · rw [h3]; exact hc
          · exact h2 s h3
      · rw [if_neg hc] at h
        have hz : n = 0 := by omega
        subst hz
        simp

/-- A bottle with `n ≤ topChunk` splits into a prefix and a length-`n`
top suffix entirely of its top color. -/
theorem topChunk_decomp (b : Bottle) (n : Nat) (hn : n ≤ b.topChunk) :
    ∃ pre suf, b.slots = pre ++ suf ∧ suf.length = n ∧ ∀ s ∈ suf, s.c = b.topColor := by
  cases hgl : b.slots.getLast? with
  | none =>
    simp only [Bottle.topChunk, hgl] at hn
    have hz : n = 0 := by omega
    subst hz
    exact ⟨b.slots, [], by simp, rfl, by simp⟩
  | some s =>
    simp only [Bottle.topChunk, hgl] at hn
    by_cases hz : s.c = 0 ∨ s.hidden
    · rw [if_pos hz] at hn
      have h0 : n = 0 := by omega
      subst h0
      exact ⟨b.slots, [], by simp, rfl, by simp⟩
    · rw [if_neg hz] at hn
      obtain ⟨h1, h2⟩ := chunkAux_take b.slots.reverse s.c n hn
      refine ⟨(b.slots.reverse.drop n).reverse, (b.slots.reverse.take n).reverse, ?_, ?_, ?_⟩
      · rw [← List.reverse_append, List.take_append_drop, List.reverse_reverse]
      · rw [List.length_reverse, List.length_take, List.length_reverse] at *
        omega
      · intro s2 hs2
        have hmem : s2 ∈ b.slots.reverse.take n := List.mem_reverse.mp hs2
        have hcol := h2 s2 hmem
        have htop : b.topColor = s.c := by
          simp only [Bottle.topColor, hgl]
        rw [htop]
        exact hcol

/-- The facts packed inside `isMonoFull`. -/
theorem isMonoFull_facts {b : Bottle} (h : b.isMonoFull = true) :
    b.slots ≠ [] ∧ ∃ c0, c0 ≠ 0 ∧ ∀ s ∈ b.slots, s.c = c0 := by
  unfold Bottle.isMonoFull at h
  by_cases h1 : b.size ≠ b.capacity ∨ b.slots.isEmpty
  · rw [if_pos h1] at h
    exact absurd h (by simp)
  · rw [if_neg h1] at h
    push_neg at h1
    obtain ⟨-, hne⟩ := h1
    have hne2 : b.slots ≠ [] := by
      intro he
      rw [he] at hne
      simp at hne
    cases hh : b.slots.head? with
    | none =>
      simp only [hh] at h
      exact absurd h (by simp)
    | some s0 =>
      simp only [hh] at h
      by_cases hz : s0.c = 0
      · rw [if_pos hz] at h
        exact absurd h (by simp)
      · rw [if_neg hz] at h
        refine ⟨hne2, s0.c, hz, ?_⟩
        intro s hs
        have := List.all_eq_true.mp h s hs
        simpa using this

/-- A heuristic term is never negative. -/
theorem bottleTerm_nonneg (b : Bottle) : 0 ≤ bottleTerm b := by
  unfold bottleTerm
  split
  · exact le_refl 0
  · split
    · exact le_refl 0
    · exact le_trans zero_le_one (le_max_left 1 _)

/-- Pouring a constant-color top suffix out of a bottle lowers its
heuristic term by at most one. -/
theorem bottleTerm_src (bf f2 : Bottle) (pre suf : List Slot) (tcol : Color)
    (hdec : bf.slots = pre ++ suf) (hsufne : suf ≠ [])
    (hcol : ∀ s ∈ suf, s.c = tcol) (htc : tcol ≠ 0)
    (hf2 : f2.slots.map Slot.c = pre.map Slot.c) :
    bottleTerm bf ≤ bottleTerm f2 + 1 := by
  have h0 := bottleTerm_nonneg f2
  by_cases he : bf.slots.isEmpty
  · have hz : bottleTerm bf = 0 := by unfold bottleTerm; rw [if_pos he]
    omega
  by_cases hm : bf.isMonoFull
  · have hz : bottleTerm bf = 0 := by unfold bottleTerm; rw [if_neg he, if_pos hm]
    omega
  have hbt : bottleTerm bf = max 1 ((groups bf.slots : Int) - 1) := by
    unfold bottleTerm
    rw [if_neg he, if_neg hm]
  have hgb : groups bf.slots ≤ groupsAux 0 pre + 1 := by
    rw [hdec]
    exact (groupsAux_append_const suf tcol hcol pre 0).2
  by_cases hpre : pre = []
  · have hsuf2 : bf.slots = suf := by rw [hdec, hpre]; rfl
    have hg1 : groups bf.slots = 1 := by
      rw [hsuf2]
      exact groups_const_one suf tcol htc hsufne hcol
    rw [hbt]
    apply max_le <;> omega
  · by_cases hm2 : f2.isMonoFull
    · obtain ⟨-, c0, hc0, hall⟩ := isMonoFull_facts hm2
      have hpc : ∀ s ∈ pre, s.c = c0 := by
        intro s hs
        have hmem : s.c ∈ f2.slots.map Slot.c := by
          rw [hf2]
          exact List.mem_map_of_mem _ hs
        obtain ⟨s2, hs2, he2⟩ := List.mem_map.mp hmem
        rw [← he2]
        exact hall s2 hs2
      have hp1 : groupsAux 0 pre ≤ 1 := groupsAux_const_le_one pre c0 0 hpc
      have hf20 : bottleTerm f2 = 0 := by
        unfold bottleTerm
        by_cases hfe : f2.slots.isEmpty
        · rw [if_pos hfe]
        · rw [if_neg hfe, if_pos hm2]
      rw [hbt]
      apply max_le <;> omega
    · by_cases he2 : f2.slots.isEmpty
      · exfalso
        have hnil : f2.slots = [] := by
          cases hcs : f2.slots with
          | nil => rfl
          | cons x xs => rw [hcs] at he2; simp at he2
        have hmapnil : pre.map Slot.c = [] := by
          rw [← hf2, hnil]
          rfl
        exact hpre (List.map_eq_nil_iff.mp hmapnil)
      · have hbt2 : bottleTerm f2 = max 1 ((groups f2.slots : Int) - 1) := by
          unfold bottleTerm
          rw [if_neg he2, if_neg hm2]
        have hgf : groups f2.slots = groupsAux 0 pre := groupsAux_congr f2.slots pre 0 hf2
        rw [hbt, hbt2]
        have h1 := le_max_left (1 : Int) ((groups f2.slots : Int) - 1)
        have h2 := le_max_right (1 : Int) ((groups f2.slots : Int) - 1)
        apply max_le <;> omega

/-- Receiving a constant-color suffix lowers the destination's heuristic
term by at most one. -/
theorem bottleTerm_dst (bt t2 : Bottle) (app : List Slot) (tcol : Color)
    (happne : app ≠ []) (hcol : ∀ s ∈ app, s.c = tcol) (htc : tcol ≠ 0)
    (ht2 : t2.slots.map Slot.c = bt.slots.map Slot.c ++ app.map Slot.c) :
    bottleTerm bt ≤ bottleTerm t2 + 1 := by
  have h0 := bottleTerm_nonneg t2
  by_cases he : bt.slots.isEmpty
  · have hz : bottleTerm bt = 0 := by unfold bottleTerm; rw [if_pos he]
    omega
  by_cases hm : bt.isMonoFull
  · have hz : bottleTerm bt = 0 := by unfold bottleTerm; rw [if_neg he, if_pos hm]
    omega
  have hbt : bottleTerm bt = max 1 ((groups bt.slots : Int) - 1) := by
    unfold bottleTerm
    rw [if_neg he, if_neg hm]
  have hg2 : groups t2.slots = groupsAux 0 (bt.slots ++ app) :=
    groupsAux_congr t2.slots (bt.slots ++ app) 0 (by rw [ht2, List.map_append])
  have hmono : groups bt.slots ≤ groups t2.slots := by
    rw [hg2]
    exact (groupsAux_append_const app tcol hcol bt.slots 0).1
  by_cases hm2 : t2.isMonoFull
  · obtain ⟨-, c0, hc0, hall⟩ := isMonoFull_facts hm2
    have hbtc : ∀ s ∈ bt.slots, s.c = c0 := by
      intro s hs
      have hmem : s.c ∈ t2.slots.map Slot.c := by
        rw [ht2]
        exact List.mem_append_left _ (List.mem_map_of_mem _ hs)
      obtain ⟨s2, hs2, he2⟩ := List.mem_map.mp hmem
      rw [← he2]
      exact hall s2 hs2
    have hbne : bt.slots ≠ [] := by
      intro hx
      rw [hx] at he
      simp at he
    have hc0ne : c0 ≠ 0 := hc0
    have hg1 : groups bt.slots = 1 := groups_const_one bt.slots c0 hc0ne hbne hbtc
    rw [hbt]
    apply max_le <;> omega
  · by_cases he2 : t2.slots.isEmpty
    · exfalso
      have hnil : t2.slots = [] := by
        cases hcs : t2.slots with
        | nil => rfl
        | cons x xs => rw [hcs] at he2; simp at he2
      rw [hnil] at ht2
      have hlen := congrArg List.length ht2
      simp only [List.length_nil, List.length_append, List.length_map] at hlen
      have : app.length = 0 := by omega
      exact happne (List.length_eq_zero.mp this)
    · have hbt2 : bottleTerm t2 = max 1 ((groups t2.slots : Int) - 1) := by
        unfold bottleTerm
        rw [if_neg he2, if_neg hm2]
      rw [hbt, hbt2]
      have h1 := le_max_left (1 : Int) ((groups t2.slots : Int) - 1)
      have h2 := le_max_right (1 : Int) ((groups t2.slots : Int) - 1)
      apply max_le <;> omega

/-- Further facts from a successful `canPour`: the source is non-empty
with non-zero top color, and the amount is positive and at most the
source's top chunk. -/
theorem canPour_pour_facts {S : State} {f t a : Int} (h : S.canPour f t = Option.some a) :
    (S.B.getD f.toNat ({} : Bottle)).slots.isEmpty = false ∧
    (S.B.getD f.toNat ({} : Bottle)).topColor ≠ 0 ∧
    0 < a ∧ a.toNat ≤ (S.B.getD f.toNat ({} : Bottle)).topChunk := by
  have h' :
    (if f = t ∨ f < 0 ∨ t < 0 ∨ (S.B.length : Int) ≤ f ∨ (S.B.length : Int) ≤ t then
      (Option.none : Option Int)
     else if (S.B.getD f.toNat ({} : Bottle)).gimmick.kind = StackGimmickKind.Vine then
      Option.none
     else if ((S.B.getD f.toNat ({} : Bottle)).gimmick.kind = StackGimmickKind.Cloth
          && S.locks.clothLocked.getD f.toNat false)
        || ((S.B.getD f.toNat ({} : Bottle)).gimmick.kind = StackGimmickKind.Bush
          && S.locks.bushLocked.getD f.toNat false) then
      Option.none
     else if ((S.B.getD t.toNat ({} : Bottle)).gimmick.kind = StackGimmickKind.Cloth
          && S.locks.clothLocked.getD t.toNat false)
        || ((S.B.getD t.toNat ({} : Bottle)).gimmick.kind = StackGimmickKind.Bush
          && S.locks.bushLocked.getD t.toNat false) then
      Option.none
     else if (S.B.getD f.toNat ({} : Bottle)).slots.isEmpty then Option.none
     else if (S.B.getD t.toNat ({} : Bottle)).capacity ≤ (S.B.getD t.toNat ({} : Bottle)).size then
      Option.none
     else if (S.B.getD f.toNat ({} : Bottle)).topColor = 0 then Option.none
     else if (S.B.getD t.toNat ({} : Bottle)).topColor ≠ 0 ∧
        (S.B.getD t.toNat ({} : Bottle)).topColor ≠ (S.B.getD f.toNat ({} : Bottle)).topColor then
      Option.none
     else if min ((S.B.getD f.toNat ({} : Bottle)).topChunk : Int)
        ((S.B.getD t.toNat ({} : Bottle)).capacity - (S.B.getD t.toNat ({} : Bottle)).size) ≤ 0 then
      Option.none
     else Option.some (min ((S.B.getD f.toNat ({} : Bottle)).topChunk : Int)
        ((S.B.getD t.toNat ({} : Bottle)).capacity - (S.B.getD t.toNat ({} : Bottle)).size)))
      = Option.some a := h
  by_cases h1 : f = t ∨ f < 0 ∨ t < 0 ∨ (S.B.length : Int) ≤ f ∨ (S.B.length : Int) ≤ t
  · rw [if_pos h1] at h'
    exact absurd h' (by simp)
  rw [if_neg h1] at h'
  by_cases h2 : (S.B.getD f.toNat ({} : Bottle)).gimmick.kind = StackGimmickKind.Vine
  · rw [if_pos h2] at h'
    exact absurd h' (by simp)
  rw [if_neg h2] at h'
  by_cases h3 : ((S.B.getD f.toNat ({} : Bottle)).gimmick.kind = StackGimmickKind.Cloth
      && S.locks.clothLocked.getD f.toNat false)
    || ((S.B.getD f.toNat ({} : Bottle)).gimmick.kind = StackGimmickKind.Bush
      && S.locks.bushLocked.getD f.toNat false)
  · rw [if_pos h3] at h'
    exact absurd h' (by simp)
  rw [if_neg h3] at h'
  by_cases h4 : ((S.B.getD t.toNat ({} : Bottle)).gimmick.kind = StackGimmickKind.Cloth
      && S.locks.clothLocked.getD t.toNat false)
    || ((S.B.getD t.toNat ({} : Bottle)).gimmick.kind = StackGimmickKind.Bush
      && S.locks.bushLocked.getD t.toNat false)
  · rw [if_pos h4] at h'
    exact absurd h' (by simp)
  rw [if_neg h4] at h'
  by_cases h5 : (S.B.getD f.toNat ({} : Bottle)).slots.isEmpty
  · rw [if_pos h5] at h'
    exact absurd h' (by simp)
  rw [if_neg h5] at h'
  by_cases h6 : (S.B.getD t.toNat ({} : Bottle)).capacity ≤ (S.B.getD t.toNat ({} : Bottle)).size
  · rw [if_pos h6] at h'
    exact absurd h' (by simp)
  rw [if_neg h6] at h'
  by_cases h7 : (S.B.getD f.toNat ({} : Bottle)).topColor = 0
  · rw [if_pos h7] at h'
    exact absurd h' (by simp)
  rw [if_neg h7] at h'
  by_cases h8 : (S.B.getD t.toNat ({} : Bottle)).topColor ≠ 0 ∧
      (S.B.getD t.toNat ({} : Bottle)).topColor ≠ (S.B.getD f.toNat ({} : Bottle)).topColor
  · rw [if_pos h8] at h'
    exact absurd h' (by simp)
  rw [if_neg h8] at h'
  by_cases h9 : min ((S.B.getD f.toNat ({} : Bottle)).topChunk : Int)
      ((S.B.getD t.toNat ({} : Bottle)).capacity - (S.B.getD t.toNat ({} : Bottle)).size) ≤ 0
  · rw [if_pos h9] at h'
    exact absurd h' (by simp)
  rw [if_neg h9] at h'
  have ha : a = min ((S.B.getD f.toNat ({} : Bottle)).topChunk : Int)
      ((S.B.getD t.toNat ({} : Bottle)).capacity - (S.B.getD t.toNat ({} : Bottle)).size) :=
    ((Option.some.injEq _ _).mp h').symm
  have hminle := min_le_left ((S.B.getD f.toNat ({} : Bottle)).topChunk : Int)
      ((S.B.getD t.toNat ({} : Bottle)).capacity - (S.B.getD t.toNat ({} : Bottle)).size)
  refine ⟨by simpa using h5, h7, by omega, by omega⟩

/-- `refreshLocks` does not touch the bottle list. -/
theorem refreshLocks_B (X : State) : (State.refreshLocks X).B = X.B := rfl

/-- Replacing one bottle exchanges exactly its term in the summed map. -/
theorem sum_map_set (g : Bottle → Int) : ∀ (B : List Bottle) (i : Nat) (x : Bottle),
    i < B.length →
    ((B.set i x).map g).sum + g (B.getD i ({} : Bottle)) = (B.map g).sum + g x := by
  intro B
  induction B with
  | nil => intro i x h; simp at h
  | cons b tl ih =>
    intro i x h
    cases i with
    | zero =>
      simp only [List.set, List.map_cons, List.sum_cons, List.getD_cons_zero]
      omega
    | succ n =>
      have hn : n < tl.length := by simpa using h
      simp only [List.set, List.map_cons, List.sum_cons, List.getD_cons_succ]
      have := ih n x hn
      omega

/-- One legal move lowers the summed heuristic terms by at most two. -/
theorem legalStep_terms {S : State} {f t a : Int} (hc : S.canPour f t = Option.some a) :
    (S.B.map bottleTerm).sum ≤
      (((S.apply { «from» := f, «to» := t, amount := a }).B).map bottleTerm).sum + 2 := by
  obtain ⟨-, -, -, hfl, htl, hnn⟩ := canPour_facts hc
  obtain ⟨hne, htc, hpos, hle⟩ := canPour_pour_facts hc
  set F2 : Bottle := { (S.B.getD f.toNat ({} : Bottle)) with
      slots := revealTop (popPush a.toNat (S.B.getD f.toNat ({} : Bottle)).slots
        (S.B.getD t.toNat ({} : Bottle)).slots).1 } with hF2
  set T2 : Bottle := { (S.B.getD t.toNat ({} : Bottle)) with
      slots := revealTop (popPush a.toNat (S.B.getD f.toNat ({} : Bottle)).slots
        (S.B.getD t.toNat ({} : Bottle)).slots).2 } with hT2
  have happly : (S.apply { «from» := f, «to» := t, amount := a }).B
      = (S.B.set f.toNat F2).set t.toNat T2 := by
    rw [apply_of_canPour hc, refreshLocks_B, hF2, hT2]
  rw [happly]
  obtain ⟨pre, suf, hdec, hslen, hscol⟩ :=
    topChunk_decomp (S.B.getD f.toNat ({} : Bottle)) a.toNat hle
  have hps := popPush_split suf pre (S.B.getD t.toNat ({} : Bottle)).slots
  rw [hslen, ← hdec] at hps
  obtain ⟨hps1, app, hps2, hpslen, hpscol⟩ := hps
  have hsufne : suf ≠ [] := by
    intro hx
    rw [hx] at hslen
    simp at hslen
    omega
  have happne : app ≠ [] := by
    intro hx
    rw [hx] at hpslen
    simp at hpslen
    omega
  have happcol : ∀ s ∈ app, s.c = (S.B.getD f.toNat ({} : Bottle)).topColor := by
    intro s hs
    obtain ⟨s2, hs2, he2⟩ := hpscol s hs
    rw [he2]
    exact hscol s2 hs2
  have hd1 : bottleTerm (S.B.getD f.toNat ({} : Bottle)) ≤ bottleTerm F2 + 1 := by
    apply bottleTerm_src _ _ pre suf _ hdec hsufne hscol htc
    rw [hF2]
    show (revealTop (popPush a.toNat (S.B.getD f.toNat ({} : Bottle)).slots
      (S.B.getD t.toNat ({} : Bottle)).slots).1).map Slot.c = pre.map Slot.c
    rw [revealTop_mapc, hps1]
  have hd2 : bottleTerm (S.B.getD t.toNat ({} : Bottle)) ≤ bottleTerm T2 + 1 := by
    apply bottleTerm_dst _ _ app _ happne happcol htc
    rw [hT2]
    show (revealTop (popPush a.toNat (S.B.getD f.toNat ({} : Bottle)).slots
      (S.B.getD t.toNat ({} : Bottle)).slots).2).map Slot.c = _
    rw [revealTop_mapc, hps2, List.map_append]
  have htl2 : t.toNat < (S.B.set f.toNat F2).length := by
    simpa using htl
  have e1 := sum_map_set bottleTerm (S.B.set f.toNat F2) t.toNat T2 htl2
  rw [getD_set_ne _ _ _ _ hnn] at e1
  have e2 := sum_map_set bottleTerm S.B f.toNat F2 hfl
  omega

/-- In a solved state every heuristic term vanishes. -/
theorem isSolved_terms {S : State} (h : S.isSolved = true) :
    (S.B.map bottleTerm).sum = 0 := by
  have hall : ∀ b ∈ S.B, (b.slots.isEmpty || b.isMonoFull) = true := by
    intro b hb
    have := List.all_eq_true.mp h b hb
    simpa using this
  apply List.sum_eq_zero
  intro x hx
  obtain ⟨b, hb, rfl⟩ := List.mem_map.mp hx
  rcases Bool.or_eq_true_iff.mp (hall b hb) with hbe | hbm
  · unfold bottleTerm
    rw [if_pos hbe]
  · unfold bottleTerm
    by_cases hbe : b.slots.isEmpty
    · rw [if_pos hbe]
    · rw [if_neg hbe, if_pos hbm]

/-- Along a legal solving sequence the summed terms are bounded by twice
the number of remaining moves. -/
theorem solvesIn_terms {S : State} {n : Nat} (h : SolvesIn S n) :
    (S.B.map bottleTerm).sum ≤ 2 * (n : Int) := by
  induction h with
  | solved hs =>
    rw [isSolved_terms hs]
    simp
  | step hc _ ih =>
    have hstep := legalStep_terms hc
    push_cast
    push_cast at ih
    omega

/-- The heuristic never exceeds the summed per-bottle terms. -/
theorem heuristic_le_terms (S : State) : heuristic S ≤ (S.B.map bottleTerm).sum := by
  have h0 : 0 ≤ (S.B.map bottleTerm).sum := by
    apply List.sum_nonneg
    intro x hx
    obtain ⟨b, -, rfl⟩ := List.mem_map.mp hx
    exact bottleTerm_nonneg b
  have h1 : (0 : Int) ≤ ((S.B.countP fun b => b.slots.isEmpty : Nat) : Int) := by positivity
  have h2 : (0 : Int) ≤ min 2 ((S.B.countP fun b => b.slots.isEmpty : Nat) : Int) :=
    le_min (by norm_num) h1
  show max 0 ((S.B.map bottleTerm).sum
      - min 2 ((S.B.countP fun b => b.slots.isEmpty : Nat) : Int)) ≤ _
  apply max_le h0
  omega

/-- **C5** (amended): the heuristic is not an admissible lower bound on
the remaining move count (see `heuristic_inadmissible_counterexample`),
but it never exceeds twice the length of any legal solving sequence:
`SolvesIn S n → heuristic S ≤ 2n`. -/
theorem heuristic_le_twice_solution (S : State) (n : Nat) (h : SolvesIn S n) :
    heuristic S ≤ 2 * (n : Int) :=
  le_trans (heuristic_le_terms S) (solvesIn_terms h)

/-- Witness for `heuristic_le_twice_solution` on `exHeu`, which one legal
pour solves. -/
theorem heuristic_le_twice_solution_witness :
    heuristic exHeu ≤ 2 * ((1 : Nat) : Int) :=
  heuristic_le_twice_solution exHeu 1
    (SolvesIn.step (f := 0) (t := 1) (a := 2) (by decide) (SolvesIn.solved (by decide)))

/-- The heuristic is never negative. -/
theorem heuristic_nonneg (s : State) : 0 ≤ heuristic s := le_max_left 0 _

/-- Every generated candidate passes `canPour` with exactly its amount. -/
theorem genCands_sound (s : State) : ∀ c ∈ genCands s,
    s.canPour c.m.«from» c.m.«to» = Option.some c.m.amount := by
  intro c hc
  unfold genCands at hc
  rw [List.mem_flatMap] at hc
  obtain ⟨i, hi, hc⟩ := hc
  rw [List.mem_filterMap] at hc
  obtain ⟨j, hj, hc⟩ := hc
  by_cases hij : i = j
  · rw [if_pos hij] at hc
    exact Option.noConfusion hc
  · rw [if_neg hij] at hc
    cases hcp : s.canPour i j with
    | none =>
      rw [hcp] at hc
      exact Option.noConfusion (show (Option.none : Option Cand) = Option.some c from hc)
    | some amt =>
      rw [hcp] at hc
      have hcc := (Option.some.injEq _ _).mp hc
      rw [← hcc]
      exact hcp

/-- Every ordered candidate passes `canPour` with exactly its amount. -/
theorem orderedCands_sound (s : State) : ∀ c ∈ orderedCands s,
    s.canPour c.m.«from» c.m.«to» = Option.some c.m.amount := by
  intro c hc
  simp only [orderedCands, List.mem_append] at hc
  rcases hc with hc | hc
  · exact genCands_sound s c (List.mem_of_mem_filter hc)
  · exact genCands_sound s c (List.mem_of_mem_filter hc)

/-- The post-processing tail of `Solver::solve` never changes the
solution path or the move count. -/
theorem solvePost_fields (b : SolveResult) (st : SolutionCountResult) (c2 : Bool) :
    (solvePost b st c2).solutionMoves = b.solutionMoves ∧
    (solvePost b st c2).minMoves = b.minMoves := by
  simp only [solvePost]
  split <;> split <;> split <;> split <;> exact ⟨rfl, rfl⟩

/-- One unfolding of the candidate loop given the result of the first
recursive call and the fact that it restores the path. -/
theorem childLoop_cons (recur : Move → Ctx → Int × Ctx) (c : Cand) (rest : List Cand)
    (mn : Int) (ctx : Ctx) (rv : Int) (rc : Ctx)
    (hr : recur c.m { ctx with path := ctx.path ++ [c.m] } = (rv, rc))
    (hpath : rc.path = ctx.path ++ [c.m]) :
    childLoop recur (c :: rest) mn ctx =
      (if rv < 0 then (rv, { rc with path := ctx.path })
       else if rc.timedOut = true then
         ((if rv < mn then rv else mn), { rc with path := ctx.path })
       else childLoop recur rest (if rv < mn then rv else mn) { rc with path := ctx.path }) := by
  have hctx2 : ({ rc with path := if rc.path.isEmpty then rc.path else rc.path.dropLast } : Ctx)
      = { rc with path := ctx.path } := by
    rw [hpath]
    have hne : ((ctx.path ++ [c.m]).isEmpty : Bool) = false := by simp
    rw [hne]
    simp [List.dropLast_concat]
  simp only [childLoop, hr, hctx2]

/-- Soundness of the candidate loop: the path is restored, recorded
solutions are kept, and a negative return value means a legal solving
suffix of matching length was recorded. -/
theorem childLoop_sound (s : State) (g : Int) (recur : Move → Ctx → Int × Ctx) :
    ∀ (l : List Cand),
      (∀ c ∈ l, s.canPour c.m.«from» c.m.«to» = Option.some c.m.amount) →
      (∀ c ∈ l, ∀ cx : Ctx,
        (recur c.m cx).2.path = cx.path ∧
        (∀ lm, cx.found = Option.some lm → (recur c.m cx).2.found = Option.some lm) ∧
        (cx.found = Option.none → (recur c.m cx).1 < 0 →
          ∃ σ, (recur c.m cx).2.found = Option.some (cx.path ++ σ) ∧
            replayChecks (s.apply c.m) σ = true ∧
            (σ.length : Int) + (g + 1) = -(recur c.m cx).1) ∧
        (cx.found = Option.none → 0 ≤ (recur c.m cx).1 →
          (recur c.m cx).2.found = Option.none)) →
      ∀ (mn : Int) (ctx : Ctx), 0 ≤ mn →
        (childLoop recur l mn ctx).2.path = ctx.path ∧
        (∀ lm, ctx.found = Option.some lm →
          (childLoop recur l mn ctx).2.found = Option.some lm) ∧
        (ctx.found = Option.none → (childLoop recur l mn ctx).1 < 0 →
          ∃ σ, (childLoop recur l mn ctx).2.found = Option.some (ctx.path ++ σ) ∧
            replayChecks s σ = true ∧ (σ.length : Int) + g = -(childLoop recur l mn ctx).1) ∧
        (ctx.found = Option.none → 0 ≤ (childLoop recur l mn ctx).1 →
          (childLoop recur l mn ctx).2.found = Option.none) := by
  intro l
  induction l with
  | nil =>
    intro _ _ mn ctx hmn
    refine ⟨rfl, fun lm hl => hl, ?_, fun h0 _ => h0⟩
    intro _ hneg
    exact absurd (show mn < 0 from hneg) (by omega)
  | cons c rest ihl =>
    intro hcand hrec mn ctx hmn
    obtain ⟨rv, rc, hr⟩ : ∃ rv rc, recur c.m { ctx with path := ctx.path ++ [c.m] } = (rv, rc) :=
      ⟨_, _, rfl⟩
    have hrconj := hrec c (by simp) { ctx with path := ctx.path ++ [c.m] }
    rw [hr] at hrconj
    obtain ⟨hr1, hr2, hr3, hr4⟩ := hrconj
    have hpath : rc.path = ctx.path ++ [c.m] := hr1
    rw [childLoop_cons recur c rest mn ctx rv rc hr hpath]
    by_cases hneg : rv < 0
    · rw [if_pos hneg]
      refine ⟨rfl, ?_, ?_, ?_⟩
      · intro lm hl
        exact hr2 lm hl
      · intro h0 _
        obtain ⟨σ, hfnd, hrep, hlen⟩ := hr3 h0 hneg
        have hfnd2 : rc.found = Option.some (ctx.path ++ (c.m :: σ)) := by
          have hass : (ctx.path ++ [c.m]) ++ σ = ctx.path ++ (c.m :: σ) := by simp
          rw [← hass]
          exact hfnd
        have hrep2 : replayChecks s (c.m :: σ) = true := by
          simp only [replayChecks, Bool.and_eq_true]
          exact ⟨decide_eq_true (hcand c (by simp)), hrep⟩
        refine ⟨c.m :: σ, hfnd2, hrep2, ?_⟩
        have hlen2 : (σ.length : Int) + (g + 1) = -rv := hlen
        show ((c.m :: σ).length : Int) + g = -rv
        simp only [List.length_cons]
        push_cast
        push_cast at hlen2
        omega
      · intro h0 hpos
        exfalso
        have hpos2 : 0 ≤ rv := hpos
        omega
    · rw [if_neg hneg]
      have hrvnn : 0 ≤ rv := by omega
      have hmn2 : 0 ≤ (if rv < mn then rv else mn) := by
        by_cases hx : rv < mn
        · rw [if_pos hx]; omega
        · rw [if_neg hx]; omega
      have hfound_pres : ∀ lm, ctx.found = Option.some lm → rc.found = Option.some lm :=
        fun lm hl => hr2 lm hl
      have hfound_none : ctx.found = Option.none → rc.found = Option.none :=
        fun h0 => hr4 h0 hrvnn
      by_cases htmo : rc.timedOut = true
      · rw [if_pos htmo]
        refine ⟨rfl, ?_, ?_, ?_⟩
        · intro lm hl
          exact hfound_pres lm hl
        · intro h0 hneg2
          exfalso
          have hm2 : (if rv < mn then rv else mn) < 0 := hneg2
          omega
        · intro h0 _
          exact hfound_none h0
      · rw [if_neg htmo]
        have ihre := ihl (fun c2 hc2 => hcand c2 (by simp [hc2]))
          (fun c2 hc2 cx => hrec c2 (by simp [hc2]) cx)
          (if rv < mn then rv else mn) { rc with path := ctx.path } hmn2
        obtain ⟨ih1, ih2, ih3, ih4⟩ := ihre
        refine ⟨?_, ?_, ?_, ?_⟩
        · exact ih1
        · intro lm hl
          exact ih2 lm (hfound_pres lm hl)
        · intro h0 hneg2
          exact ih3 (hfound_none h0) hneg2
        · intro h0 hpos
          exact ih4 (hfound_none h0) hpos

/-- Soundness of the IDA* `dfs`: the path is restored, recorded
solutions are kept, and a negative return `-g - |σ|` means a legal
solving suffix `σ` from the current state was appended to the recorded
path. -/
theorem dfs_sound (tk : Nat → Bool) (bound : Int) :
    ∀ (fuel : Nat) (s : State) (g : Int) (ctx : Ctx), 0 ≤ g → (1 ≤ g ∨ s.isSolved = false) →
      (dfs tk fuel s g bound ctx).2.path = ctx.path ∧
      (∀ lm, ctx.found = Option.some lm →
        (dfs tk fuel s g bound ctx).2.found = Option.some lm) ∧
      (ctx.found = Option.none → (dfs tk fuel s g bound ctx).1 < 0 →
        ∃ σ, (dfs tk fuel s g bound ctx).2.found = Option.some (ctx.path ++ σ) ∧
          replayChecks s σ = true ∧ (σ.length : Int) + g = -(dfs tk fuel s g bound ctx).1) ∧
      (ctx.found = Option.none → 0 ≤ (dfs tk fuel s g bound ctx).1 →
        (dfs tk fuel s g bound ctx).2.found = Option.none) := by
  intro fuel
  induction fuel with
  | zero =>
    intro s g ctx hg0 hg1
    refine ⟨rfl, fun lm hl => hl, ?_, fun h0 _ => h0⟩
    intro _ hneg
    exact absurd (show (2147483647 : Int) < 0 from hneg) (by decide)
  | succ fuel ih =>
    intro s g ctx hg0 hg1
    have hunf : dfs tk (fuel + 1) s g bound ctx =
        (if (!tk ctx.tick) = true then
          (intMax, { ctx with tick := ctx.tick + 1, timedOut := true })
         else if g + heuristic s > bound then
          (g + heuristic s, { ctx with tick := ctx.tick + 1 })
         else if s.isSolved = true then
          (-g,
           match ctx.found with
           | Option.none => { ctx with tick := ctx.tick + 1, found := Option.some ctx.path }
           | Option.some _ => { ctx with tick := ctx.tick + 1 })
         else if ctx.visited.contains s.hash = true then
          (intMax, { ctx with tick := ctx.tick + 1 })
         else
          childLoop (fun m c => dfs tk fuel (s.apply m) (g + 1) bound c) (orderedCands s) intMax
            { ctx with tick := ctx.tick + 1, visited := s.hash :: ctx.visited }) := rfl
    by_cases h1 : (!tk ctx.tick) = true
    · have hval : dfs tk (fuel + 1) s g bound ctx =
          (intMax, { ctx with tick := ctx.tick + 1, timedOut := true }) := by
        rw [hunf, if_pos h1]
      rw [hval]
      refine ⟨rfl, fun lm hl => hl, ?_, fun h0 _ => h0⟩
      intro _ hneg
      exact absurd (show (2147483647 : Int) < 0 from hneg) (by decide)
    · by_cases h2 : g + heuristic s > bound
      · have hval : dfs tk (fuel + 1) s g bound ctx =
            (g + heuristic s, { ctx with tick := ctx.tick + 1 }) := by
          rw [hunf, if_neg h1, if_pos h2]
        rw [hval]
        refine ⟨rfl, fun lm hl => hl, ?_, fun h0 _ => h0⟩
        intro _ hneg
        exfalso
        have hneg2 : g + heuristic s < 0 := hneg
        have hh := heuristic_nonneg s
        omega
      · by_cases h3 : s.isSolved = true
        · have hg2 : 1 ≤ g := by
            rcases hg1 with hx | hx
            · exact hx
            · rw [h3] at hx
              cases hx
          cases hfnd : ctx.found with
          | none =>
            have hval : dfs tk (fuel + 1) s g bound ctx =
                (-g, { ctx with tick := ctx.tick + 1, found := Option.some ctx.path }) := by
              rw [hunf, if_neg h1, if_neg h2, if_pos h3, hfnd]
            rw [hval]
            refine ⟨rfl, ?_, ?_, ?_⟩
            · intro lm hl
              exact Option.noConfusion hl
            · intro _ _
              refine ⟨[], ?_, ?_, ?_⟩
              · simp
              · exact h3
              · simp
            · intro _ hpos
              exfalso
              have hpos2 : 0 ≤ -g := hpos
              omega
          | some l0 =>
            have hval : dfs tk (fuel + 1) s g bound ctx =
                (-g, { ctx with tick := ctx.tick + 1 }) := by
              rw [hunf, if_neg h1, if_neg h2, if_pos h3, hfnd]
            rw [hval]
            refine ⟨rfl, fun lm hl => hfnd.trans hl, ?_, ?_⟩
            · intro h0 _
              exact Option.noConfusion h0
            · intro h0 _
              exact Option.noConfusion h0
        · by_cases h4 : ctx.visited.contains s.hash = true
          · have hval : dfs tk (fuel + 1) s g bound ctx =
                (intMax, { ctx with tick := ctx.tick + 1 }) := by
              rw [hunf, if_neg h1, if_neg h2, if_neg h3, if_pos h4]
            rw [hval]
            refine ⟨rfl, fun lm hl => hl, ?_, fun h0 _ => h0⟩
            intro _ hneg
            exact absurd (show (2147483647 : Int) < 0 from hneg) (by decide)
          · have hval : dfs tk (fuel + 1) s g bound ctx =
                childLoop (fun m c => dfs tk fuel (s.apply m) (g + 1) bound c)
                  (orderedCands s) intMax
                  { ctx with tick := ctx.tick + 1, visited := s.hash :: ctx.visited } := by
              rw [hunf, if_neg h1, if_neg h2, if_neg h3, if_neg h4]
            rw [hval]
            exact childLoop_sound s g _ (orderedCands s) (orderedCands_sound s)
              (fun c _ cx => ih (s.apply c.m) (g + 1) cx (by omega) (Or.inl (by omega)))
              intMax _ (by decide)

/-- Soundness of the IDA* deepening loop: a `some d` outcome records a
legal solving sequence of length `d` from the search root. -/
theorem solveLoop_sound (tk : Nat → Bool) (ss : State) (hss : ss.isSolved = false) :
    ∀ (fuel : Nat) (bound : Int) (ctx : Ctx), ctx.path = [] → ctx.found = Option.none →
      ∀ d, (solveLoop tk ss fuel bound ctx).1 = Option.some d →
        ∃ σ, (solveLoop tk ss fuel bound ctx).2.2.found = Option.some σ ∧
          replayChecks ss σ = true ∧ (σ.length : Int) = d := by
  intro fuel
  induction fuel with
  | zero =>
    intro bound ctx hp hf d hd
    exact Option.noConfusion (show (Option.none : Option Int) = Option.some d from hd)
  | succ fuel ih =>
    intro bound ctx hp hf d hd
    have hunf : solveLoop tk ss (fuel + 1) bound ctx =
        (if (!tk ctx.tick) = true then
          (Option.none, bound, { ctx with tick := ctx.tick + 1, timedOut := true })
         else if (dfs tk (bound.toNat + 2) ss 0 bound
             { ctx with tick := ctx.tick + 1, visited := [] }).1 < 0 then
           (Option.some (-(dfs tk (bound.toNat + 2) ss 0 bound
               { ctx with tick := ctx.tick + 1, visited := [] }).1), bound,
            (dfs tk (bound.toNat + 2) ss 0 bound
               { ctx with tick := ctx.tick + 1, visited := [] }).2)
         else if (dfs tk (bound.toNat + 2) ss 0 bound
               { ctx with tick := ctx.tick + 1, visited := [] }).2.timedOut = true ∨
             (dfs tk (bound.toNat + 2) ss 0 bound
               { ctx with tick := ctx.tick + 1, visited := [] }).1 = intMax then
           (Option.none, bound,
            { (dfs tk (bound.toNat + 2) ss 0 bound
                { ctx with tick := ctx.tick + 1, visited := [] }).2 with timedOut := true })
         else solveLoop tk ss fuel
           (dfs tk (bound.toNat + 2) ss 0 bound
             { ctx with tick := ctx.tick + 1, visited := [] }).1
           (dfs tk (bound.toNat + 2) ss 0 bound
             { ctx with tick := ctx.tick + 1, visited := [] }).2) := rfl
    by_cases h1 : (!tk ctx.tick) = true
    · rw [hunf, if_pos h1] at hd
      exact Option.noConfusion (show (Option.none : Option Int) = Option.some d from hd)
    · rw [hunf, if_neg h1] at hd
      obtain ⟨hds1, hds2, hds3, hds4⟩ := dfs_sound tk bound (bound.toNat + 2) ss 0
        { ctx with tick := ctx.tick + 1, visited := [] } (le_refl 0) (Or.inr hss)
      by_cases h2 : (dfs tk (bound.toNat + 2) ss 0 bound
          { ctx with tick := ctx.tick + 1, visited := [] }).1 < 0
      · rw [if_pos h2] at hd
        have hdval : -(dfs tk (bound.toNat + 2) ss 0 bound
            { ctx with tick := ctx.tick + 1, visited := [] }).1 = d :=
          (Option.some.injEq _ _).mp hd
        obtain ⟨σ, hfnd, hrep, hlen⟩ := hds3 hf h2
        rw [hunf, if_neg h1, if_pos h2]
        refine ⟨σ, ?_, hrep, ?_⟩
        · show (dfs tk (bound.toNat + 2) ss 0 bound
            { ctx with tick := ctx.tick + 1, visited := [] }).2.found = Option.some σ
          rw [hfnd]
          have hpv : ({ ctx with tick := ctx.tick + 1, visited := [] } : Ctx).path = [] := hp
          rw [hpv, List.nil_append]
        · show (σ.length : Int) = d
          have hlen2 : (σ.length : Int) + 0 = -(dfs tk (bound.toNat + 2) ss 0 bound
              { ctx with tick := ctx.tick + 1, visited := [] }).1 := hlen
          omega
      · rw [if_neg h2] at hd
        by_cases h3 : (dfs tk (bound.toNat + 2) ss 0 bound
              { ctx with tick := ctx.tick + 1, visited := [] }).2.timedOut = true ∨
            (dfs tk (bound.toNat + 2) ss 0 bound
              { ctx with tick := ctx.tick + 1, visited := [] }).1 = intMax
        · rw [if_pos h3] at hd
          exact Option.noConfusion (show (Option.none : Option Int) = Option.some d from hd)
        · rw [if_neg h3] at hd
          rw [hunf, if_neg h1, if_neg h2, if_neg h3]
          exact ih (dfs tk (bound.toNat + 2) ss 0 bound
              { ctx with tick := ctx.tick + 1, visited := [] }).1
            (dfs tk (bound.toNat + 2) ss 0 bound
              { ctx with tick := ctx.tick + 1, visited := [] }).2
            (hds1.trans hp) (hds4 hf (by omega)) d hd

/-- **C1**: solver soundness — whenever `Solver::solve` reports
`solved = true`, replaying the returned `solutionMoves` from the
revealed (hidden-cleared) start passes `canPour` at every step, ends in
an `isSolved` state, and their number equals the returned `minMoves`. -/
theorem solve_sound (tk : Nat → Bool) (loopFuel : Nat) (S : State)
    (h : (Solver.solve tk loopFuel S).solved = true) :
    replayChecks (normalizeForSolve S) (Solver.solve tk loopFuel S).solutionMoves = true ∧
    ((Solver.solve tk loopFuel S).solutionMoves.length : Int)
      = (Solver.solve tk loopFuel S).minMoves := by
  have hunf : Solver.solve tk loopFuel S =
      (if (normalizeForSolve S).isSolved = true then
        ({ solved := true, minMoves := 0, distinctSolutions := 1,
           solutionCountExhaustive := true } : SolveResult)
       else
        match (solveLoop tk (normalizeForSolve S) loopFuel (heuristic (normalizeForSolve S))
            ({} : Ctx)).1 with
        | Option.none =>
          { solved := false,
            timedOut := (solveLoop tk (normalizeForSolve S) loopFuel
              (heuristic (normalizeForSolve S)) ({} : Ctx)).2.2.timedOut,
            minMoves := (solveLoop tk (normalizeForSolve S) loopFuel
              (heuristic (normalizeForSolve S)) ({} : Ctx)).2.1 }
        | Option.some solvedDepth =>
          if (!tk (solveLoop tk (normalizeForSolve S) loopFuel
              (heuristic (normalizeForSolve S)) ({} : Ctx)).2.2.tick) = true then
            { solved := true, minMoves := solvedDepth,
              solutionMoves := (solveLoop tk (normalizeForSolve S) loopFuel
                (heuristic (normalizeForSolve S)) ({} : Ctx)).2.2.found.getD [],
              distinctSolutions := 1, timedOut := true }
          else
            solvePost
              { solved := true, minMoves := solvedDepth,
                solutionMoves := (solveLoop tk (normalizeForSolve S) loopFuel
                  (heuristic (normalizeForSolve S)) ({} : Ctx)).2.2.found.getD [],
                distinctSolutions := 1 }
              (countMinimalSolutions tk (normalizeForSolve S) solvedDepth 4
                ((solveLoop tk (normalizeForSolve S) loopFuel
                  (heuristic (normalizeForSolve S)) ({} : Ctx)).2.2.tick + 1)).1
              (tk (countMinimalSolutions tk (normalizeForSolve S) solvedDepth 4
                ((solveLoop tk (normalizeForSolve S) loopFuel
                  (heuristic (normalizeForSolve S)) ({} : Ctx)).2.2.tick + 1)).2)) := rfl
  by_cases hsv : (normalizeForSolve S).isSolved = true
  · have hval : Solver.solve tk loopFuel S =
        ({ solved := true, minMoves := 0, distinctSolutions := 1,
           solutionCountExhaustive := true } : SolveResult) := by
      rw [hunf, if_pos hsv]
    rw [hval]
    exact ⟨hsv, rfl⟩
  · have hss : (normalizeForSolve S).isSolved = false := by simpa using hsv
    rcases hLLv : (solveLoop tk (normalizeForSolve S) loopFuel
        (heuristic (normalizeForSolve S)) ({} : Ctx)).1 with _ | d
    · have hval : Solver.solve tk loopFuel S =
          { solved := false,
            timedOut := (solveLoop tk (normalizeForSolve S) loopFuel
              (heuristic (normalizeForSolve S)) ({} : Ctx)).2.2.timedOut,
            minMoves := (solveLoop tk (normalizeForSolve S) loopFuel
              (heuristic (normalizeForSolve S)) ({} : Ctx)).2.1 } := by
        rw [hunf, if_neg hsv, hLLv]
      rw [hval] at h
      exact absurd h (by simp)
    · obtain ⟨σ, hσf, hσrep, hσlen⟩ := solveLoop_sound tk (normalizeForSolve S) hss loopFuel
        (heuristic (normalizeForSolve S)) ({} : Ctx) rfl rfl d hLLv
      have hgetd : (solveLoop tk (normalizeForSolve S) loopFuel
          (heuristic (normalizeForSolve S)) ({} : Ctx)).2.2.found.getD [] = σ := by
        rw [hσf]
        rfl
      have hval0 : Solver.solve tk loopFuel S =
          (if (!tk (solveLoop tk (normalizeForSolve S) loopFuel
              (heuristic (normalizeForSolve S)) ({} : Ctx)).2.2.tick) = true then
            ({ solved := true, minMoves := d,
               solutionMoves := (solveLoop tk (normalizeForSolve S) loopFuel
                 (heuristic (normalizeForSolve S)) ({} : Ctx)).2.2.found.getD [],
               distinctSolutions := 1, timedOut := true } : SolveResult)
           else
            solvePost
              { solved := true, minMoves := d,
                solutionMoves := (solveLoop tk (normalizeForSolve S) loopFuel
                  (heuristic (normalizeForSolve S)) ({} : Ctx)).2.2.found.getD [],
                distinctSolutions := 1 }
              (countMinimalSolutions tk (normalizeForSolve S) d 4
                ((solveLoop tk (normalizeForSolve S) loopFuel
                  (heuristic (normalizeForSolve S)) ({} : Ctx)).2.2.tick + 1)).1
              (tk (countMinimalSolutions tk (normalizeForSolve S) d 4
                ((solveLoop tk (normalizeForSolve S) loopFuel
                  (heuristic (normalizeForSolve S)) ({} : Ctx)).2.2.tick + 1)).2)) := by
        rw [hunf, if_neg hsv, hLLv]
      by_cases hck : (!tk (solveLoop tk (normalizeForSolve S) loopFuel
          (heuristic (normalizeForSolve S)) ({} : Ctx)).2.2.tick) = true
      · rw [hval0, if_pos hck]
        constructor
        · show replayChecks (normalizeForSolve S)
            ((solveLoop tk (normalizeForSolve S) loopFuel
              (heuristic (normalizeForSolve S)) ({} : Ctx)).2.2.found.getD []) = true
          rw [hgetd]
          exact hσrep
        · show (((solveLoop tk (normalizeForSolve S) loopFuel
              (heuristic (normalizeForSolve S)) ({} : Ctx)).2.2.found.getD []).length : Int) = d
          rw [hgetd]
          exact hσlen
      · rw [hval0, if_neg hck]
        have hpf := solvePost_fields
          { solved := true, minMoves := d,
            solutionMoves := (solveLoop tk (normalizeForSolve S) loopFuel
              (heuristic (normalizeForSolve S)) ({} : Ctx)).2.2.found.getD [],
            distinctSolutions := 1 }
          (countMinimalSolutions tk (normalizeForSolve S) d 4
            ((solveLoop tk (normalizeForSolve S) loopFuel
              (heuristic (normalizeForSolve S)) ({} : Ctx)).2.2.tick + 1)).1
          (tk (countMinimalSolutions tk (normalizeForSolve S) d 4
            ((solveLoop tk (normalizeForSolve S) loopFuel
              (heuristic (normalizeForSolve S)) ({} : Ctx)).2.2.tick + 1)).2)
        rw [hpf.1, hpf.2]
        constructor
        · show replayChecks (normalizeForSolve S)
            ((solveLoop tk (normalizeForSolve S) loopFuel
              (heuristic (normalizeForSolve S)) ({} : Ctx)).2.2.found.getD []) = true
          rw [hgetd]
          exact hσrep
        · show (((solveLoop tk (normalizeForSolve S) loopFuel
              (heuristic (normalizeForSolve S)) ({} : Ctx)).2.2.found.getD []).length : Int) = d
          rw [hgetd]
          exact hσlen

/-- Witness for `solve_sound`: on `exHeu` the solver reports solved, and
the returned path replays legally with length `minMoves`. -/
theorem solve_sound_witness :
    replayChecks (normalizeForSolve exHeu) (Solver.solve tkTrue 12 exHeu).solutionMoves = true ∧
    ((Solver.solve tkTrue 12 exHeu).solutionMoves.length : Int)
      = (Solver.solve tkTrue 12 exHeu).minMoves :=
  solve_sound tkTrue 12 exHeu (by decide)

end WaterSort
